import Mathlib

/-!
Verification of the Hack VM-to-assembly translator (`VMTranslator.py`).

This file gives a shallow embedding of the translator's data model and
algorithms — the `Command` record, the sliding-window peephole rewriter,
the accessor-inlining pass, the preassembler and its reachability
worklist, and the assembly emitter's mutable naming state — together with
a reference interpreter for the VM command language, and proves or
refutes the specification's claims about them.

Conventions of the embedding:
* Python strings are `String`, token/argument values are `Arg`
  (`int` or `str`), machine integers are unbounded `Int` (the VM-level
  two's-complement identities `!x = -x-1` and `-x` are width-independent).
* `re.match(pat, s)` for the patterns used by the source (a literal,
  optionally followed by `.*`, or an alternation of literals) holds iff
  one of the literal alternatives is a *prefix* of `s`; the embedding
  models this directly with `List.isPrefixOf` on the character list.
  Note the patterns are unanchored at the right, so e.g. pattern `lt`
  also matches the command `lte`.
* Fallible Python operations (dict lookup, `int()` conversion, `getattr`
  dispatch) are modelled with `Option`/`Except`.
-/

namespace VMTrans

/-- One argument of a VM command: Python keeps tokens either as `int`
(positions converted with `int(...)` in the parser) or as `str`. -/
inductive Arg where
  | int (i : Int)
  | str (s : String)
deriving DecidableEq, Repr

/-- `class Command`: an opcode plus its argument tuple. -/
structure Command where
  command : String
  args : List Arg
deriving DecidableEq, Repr

/-- The characters of the Python `str(arg)` rendering of an argument. -/
def Arg.chars : Arg → List Char
  | .int i => (toString i).data
  | .str s => s.data

/-- `Command.symbolic`: `' '.join([self.command] + [str(arg) for arg in self.args])`,
as a character list. -/
def Command.symbolic (c : Command) : List Char :=
  c.command.data ++ (c.args.map (fun a => ' ' :: a.chars)).flatten

/-- `Command.symbolic` as a `String` (used by the emitter's comment lines). -/
def Command.symbolicStr (c : Command) : String :=
  ⟨c.symbolic⟩

/-- A regex as used by the source: every pattern passed to `re.match` is a
literal optionally followed by `.*`, or an alternation of such literals, so
`re.match` succeeds iff one of the alternative literals is a prefix of the
subject string (matching is anchored on the left only). -/
def regexMatch (alts : List (List Char)) (c : Command) : Bool :=
  alts.any fun p => p.isPrefixOf c.symbolic

/-- `match_code(expr, commands, exclude)`: lengths must agree, every pattern
must `re.match` the corresponding command's `symbolic()` rendering, and the
`exclude` predicate (when supplied; `fun _ => false` models `None`) must not
fire. -/
def matchCode (expr : List (List (List Char))) (cmds : List Command)
    (exclude : List Command → Bool) : Bool :=
  if expr.length = cmds.length then
    if (List.zip expr cmds).all (fun pc => regexMatch pc.1 pc.2) then
      !(exclude cmds)
    else false
  else false

/-- Worker for `window_replace`: `buf` is the current window (the Python
`result` tuple), `rest` the not-yet-consumed commands.  When the buffer is
shorter than the window width the loop has ended and the buffer is flushed;
on a match the substitution is emitted and a fresh window is taken; otherwise
the head is emitted and the window slides by one.

For window width `n ≥ 1` every step strictly shrinks `buf.length +
rest.length`, so seeding the structural fuel with `buf.length + rest.length
+ 1` (as `windowReplace` does) means the fuel never runs out; the fuel is
only a device to make the recursion structural so that the kernel can
evaluate it.  (Every pattern list of the source is non-empty, so the source
never calls this with `n = 0`.) -/
def wrAux (n : Nat) (m : List Command → Bool) (sub : List Command → List Command) :
    Nat → List Command → List Command → List Command
  | 0, buf, _ => buf
  | fuel + 1, buf, rest =>
    if buf.length < n then buf
    else if m buf then sub buf ++ wrAux n m sub fuel (rest.take n) (rest.drop n)
    else
      match buf, rest with
      | [], _ => []
      | b :: bs, r :: rs => b :: wrAux n m sub fuel (bs ++ [r]) rs
      | b :: bs, [] => b :: wrAux n m sub fuel bs []

/-- `window_replace(seq, match, sub, n)`. -/
def windowReplace (n : Nat) (m : List Command → Bool) (sub : List Command → List Command)
    (cmds : List Command) : List Command :=
  wrAux n m sub (cmds.length + 1) (cmds.take n) (cmds.drop n)

/-- `rewrite(expr, commands, replace, exclude)`. -/
def rewriteRule (expr : List (List (List Char))) (exclude : List Command → Bool)
    (sub : List Command → List Command) (cmds : List Command) : List Command :=
  windowReplace expr.length (fun w => matchCode expr w exclude) sub cmds

/-- `w[i]` on a window; the source only indexes within the matched width. -/
def winCmd (w : List Command) (i : Nat) : Command :=
  w.getD i ⟨"", []⟩

/-- `w[i].args[j]`; the source only evaluates this on windows whose match
guarantees the argument exists (Python would raise `IndexError` otherwise). -/
def winArg (w : List Command) (i j : Nat) : Arg :=
  (winCmd w i).args.getD j (.str "IndexError")

/-! ### The peephole patterns

Each `re.match` pattern of `Optimizer.optimize` and of the accessor
recognisers, rendered as its list of literal prefix alternatives. -/

def patPushConstantAny : List (List Char) := ["push constant ".data]
def patNot : List (List Char) := ["not".data]
def patNeg : List (List Char) := ["neg".data]
def patPushConstant0 : List (List Char) := ["push constant 0".data]
def patAdd : List (List Char) := ["add".data]
def patLt : List (List Char) := ["lt".data]
def patGt : List (List Char) := ["gt".data]
def patCmp : List (List Char) :=
  ["eq".data, "lt".data, "gt".data, "lte".data, "gte".data]
def patPushAny : List (List Char) := ["push ".data]
def patPopAny : List (List Char) := ["pop ".data]
def patIfGoto : List (List Char) := ["if-goto ".data]
def patGotoAny : List (List Char) := ["goto ".data]
def patLabelAny : List (List Char) := ["label ".data]
def patInlineCall : List (List Char) := ["inline-call ".data]
def patFunctionAny : List (List Char) := ["function".data]
def patPushStaticAny : List (List Char) := ["push static ".data]
def patPushArgument0 : List (List Char) := ["push argument 0".data]
def patPopPointer0 : List (List Char) := ["pop pointer 0".data]
def patPushThisAny : List (List Char) := ["push this ".data]
def patReturn : List (List Char) := ["return".data]

/-- `exclude=None`. -/
def noExclude : List Command → Bool := fun _ => false

namespace Optimizer

/-- `push constant K; not -> push constant~ K`. -/
def rwConstNot (cmds : List Command) : List Command :=
  rewriteRule [patPushConstantAny, patNot] noExclude
    (fun w => [⟨"push", [.str "constant~", winArg w 0 1]⟩]) cmds

/-- `push constant K; neg -> push constant- K`. -/
def rwConstNeg (cmds : List Command) : List Command :=
  rewriteRule [patPushConstantAny, patNeg] noExclude
    (fun w => [⟨"push", [.str "constant-", winArg w 0 1]⟩]) cmds

/-- `push constant 0; add -> noop`. -/
def rwZeroAdd (cmds : List Command) : List Command :=
  rewriteRule [patPushConstant0, patAdd] noExclude (fun _ => []) cmds

/-- `push constant 0; not -> push constant~ 0`. -/
def rwZeroNot (cmds : List Command) : List Command :=
  rewriteRule [patPushConstant0, patNot] noExclude
    (fun _ => [⟨"push", [.str "constant~", .int 0]⟩]) cmds

/-- `lt; not -> gte`.  Note the pattern `lt` is an unanchored `re.match`
and therefore also matches the command `lte`. -/
def rwLtNot (cmds : List Command) : List Command :=
  rewriteRule [patLt, patNot] noExclude (fun _ => [⟨"gte", []⟩]) cmds

/-- `gt; not -> lte`.  The pattern `gt` likewise also matches `gte`. -/
def rwGtNot (cmds : List Command) : List Command :=
  rewriteRule [patGt, patNot] noExclude (fun _ => [⟨"lte", []⟩]) cmds

/-- `push X; CMP; if-goto L -> if-CMP-goto X L`. -/
def rwCmpIfGoto (cmds : List Command) : List Command :=
  rewriteRule [patPushAny, patCmp, patIfGoto] noExclude
    (fun w => [⟨"if-" ++ (winCmd w 1).command ++ "-goto",
               [winArg w 0 0, winArg w 0 1, winArg w 2 0]⟩]) cmds

/-- `push X; pop Y -> ldd X; sdd Y`. -/
def rwPushPop (cmds : List Command) : List Command :=
  rewriteRule [patPushAny, patPopAny] noExclude
    (fun w => [⟨"ldd", (winCmd w 0).args⟩, ⟨"sdd", (winCmd w 1).args⟩]) cmds

/-- `push X; inline-call F; pop Y -> ldd X; inline-call F; sdd Y`. -/
def rwPushInlinePop (cmds : List Command) : List Command :=
  rewriteRule [patPushAny, patInlineCall, patPopAny] noExclude
    (fun w => [⟨"ldd", (winCmd w 0).args⟩, winCmd w 1, ⟨"sdd", (winCmd w 2).args⟩]) cmds

/-- `pop X; push X -> tee X`, with `exclude = lambda w: w[0].args != w[1].args`
(so the rewrite fires exactly when the two argument tuples are equal). -/
def rwPopPush (cmds : List Command) : List Command :=
  rewriteRule [patPopAny, patPushAny]
    (fun w => decide ((winCmd w 0).args ≠ (winCmd w 1).args))
    (fun w => [⟨"tee", (winCmd w 0).args⟩]) cmds

/-- `if-goto A; goto B; label A -> if-goto-not B`, with
`exclude = lambda w: w[0].args != w[2].args`. -/
def rwIfGotoGotoLabel (cmds : List Command) : List Command :=
  rewriteRule [patIfGoto, patGotoAny, patLabelAny]
    (fun w => decide ((winCmd w 0).args ≠ (winCmd w 2).args))
    (fun w => [⟨"if-goto-not", (winCmd w 1).args⟩]) cmds

/-- The body of `Optimizer.optimize`: the eleven rewrites, applied in
source order, each to the output of the previous. -/
def optimizeCommands (cmds : List Command) : List Command :=
  rwIfGotoGotoLabel (rwPopPush (rwPushInlinePop (rwPushPop (rwCmpIfGoto
    (rwGtNot (rwLtNot (rwZeroNot (rwZeroAdd (rwConstNeg (rwConstNot cmds))))))))))

end Optimizer

/-! ### A reference interpreter for the VM command language

States carry the operand stack (head = top of stack), an abstract memory
addressed by (segment, index) pairs, and the scratch `D` register targeted
by the fused `ldd`/`sdd` opcodes.  Values are unbounded integers; the
two's-complement identities used below (`!x = -x-1`, Hack `true = -1`) are
width-independent.  Executing a command list resolves jumps against the
labels of that list; a taken jump whose label is not in the list ends
execution with the pending target as part of the observable outcome. -/

structure VMState where
  stack : List Int
  mem : List ((String × Int) × Int)
  d : Int
deriving DecidableEq, Repr

/-- The segments a `pop`/`sdd`/`tee` may write (the pseudo-segments
`constant`, `constant~`, `constant-` are read-only). -/
def writableSeg (seg : String) : Bool :=
  seg ∈ ["local", "argument", "this", "that", "static", "temp", "pointer"]

/-- Read `segment[i]`; pseudo-segments are computed from the immediate the
way the lowerer computes them (`D=A`, `D=!A`, `D=-A`). -/
def segLoad (st : VMState) (seg : String) (i : Int) : Option Int :=
  if seg = "constant" then some i
  else if seg = "constant~" then some (-i - 1)
  else if seg = "constant-" then some (-i)
  else if writableSeg seg then some ((st.mem.lookup (seg, i)).getD 0)
  else none

/-- Write `segment[i] := v`. -/
def segStore (st : VMState) (seg : String) (i : Int) (v : Int) : Option VMState :=
  if writableSeg seg then some { st with mem := ((seg, i), v) :: st.mem } else none

/-- Result of one command: fall through, or a taken jump to a label. -/
inductive StepRes where
  | next (st : VMState)
  | jump (st : VMState) (l : String)

def pushVal (st : VMState) (v : Int) : VMState :=
  { st with stack := v :: st.stack }

def popVal (st : VMState) : Option (Int × VMState) :=
  match st.stack with
  | [] => none
  | t :: rest => some (t, { st with stack := rest })

/-- Binary stack operation: pop `y`, pop `x`, push `f x y`. -/
def binop (f : Int → Int → Int) (st : VMState) : Option VMState := do
  let (y, st) ← popVal st
  let (x, st) ← popVal st
  pure (pushVal st (f x y))

/-- Unary operation on the stack top. -/
def unop (f : Int → Int) (st : VMState) : Option VMState := do
  let (t, st) ← popVal st
  pure (pushVal st (f t))

/-- Hack truth values: comparisons materialise `-1` (all ones) or `0`. -/
def hackBool (b : Bool) : Int := if b then -1 else 0

/-- One command.  Semantics of the standard opcodes follow the VM
specification; semantics of the translator-synthesized opcodes
(`constant~`/`constant-` handled in `segLoad`, `ldd`, `sdd`, `tee`,
`if-CMP-goto`, `if-goto-not`, the `inline-call`/`inline-return` markers)
are read off their lowerings in `ASMTranslator`.  Commands outside this
set, and stack underflow, are stuck (`none`). -/
def stepCmd (c : Command) (st : VMState) : Option StepRes :=
  match c.command, c.args with
  | "add", [] => (binop (· + ·) st).map .next
  | "sub", [] => (binop (· - ·) st).map .next
  | "and", [] => (binop Int.land st).map .next
  | "or", [] => (binop Int.lor st).map .next
  | "neg", [] => (unop (fun t => -t) st).map .next
  | "not", [] => (unop (fun t => -t - 1) st).map .next
  | "eq", [] => (binop (fun x y => hackBool (x = y)) st).map .next
  | "lt", [] => (binop (fun x y => hackBool (x < y)) st).map .next
  | "gt", [] => (binop (fun x y => hackBool (x > y)) st).map .next
  | "lte", [] => (binop (fun x y => hackBool (x ≤ y)) st).map .next
  | "gte", [] => (binop (fun x y => hackBool (x ≥ y)) st).map .next
  | "push", [.str seg, .int i] => do
      let v ← segLoad st seg i
      pure (.next (pushVal st v))
  | "pop", [.str seg, .int i] => do
      let (t, st) ← popVal st
      let st ← segStore st seg i t
      pure (.next st)
  | "ldd", [.str seg, .int i] => do
      let v ← segLoad st seg i
      pure (.next { st with d := v })
  | "sdd", [.str seg, .int i] => do
      let st' ← segStore st seg i st.d
      pure (.next st')
  | "tee", [.str seg, .int i] => do
      match st.stack with
      | [] => none
      | t :: _ => do
        let st' ← segStore st seg i t
        pure (.next st')
  | "drop", [] => do
      let (_, st) ← popVal st
      pure (.next st)
  | "label", [.str _] => some (.next st)
  | "goto", [.str l] => some (.jump st l)
  | "if-goto", [.str l] => do
      let (t, st) ← popVal st
      pure (if t ≠ 0 then .jump st l else .next st)
  | "if-goto-not", [.str l] => do
      let (t, st) ← popVal st
      pure (if t = 0 then .jump st l else .next st)
  | "if-eq-goto", [.str seg, .int i, .str l] => do
      let v ← segLoad st seg i
      let (x, st) ← popVal st
      pure (if x = v then .jump st l else .next st)
  | "if-lt-goto", [.str seg, .int i, .str l] => do
      let v ← segLoad st seg i
      let (x, st) ← popVal st
      pure (if x < v then .jump st l else .next st)
  | "if-gt-goto", [.str seg, .int i, .str l] => do
      let v ← segLoad st seg i
      let (x, st) ← popVal st
      pure (if x > v then .jump st l else .next st)
  | "if-lte-goto", [.str seg, .int i, .str l] => do
      let v ← segLoad st seg i
      let (x, st) ← popVal st
      pure (if x ≤ v then .jump st l else .next st)
  | "if-gte-goto", [.str seg, .int i, .str l] => do
      let v ← segLoad st seg i
      let (x, st) ← popVal st
      pure (if x ≥ v then .jump st l else .next st)
  | "inline-call", [.str _, .str _] => some (.next st)
  | "inline-return", [.str _, .str _] => some (.next st)
  | _, _ => none

/-! ### Parser

`Parser.__next__`: strip the `//` comment, strip surrounding whitespace,
skip empty lines, collapse whitespace runs to single spaces, split on
single spaces, and build a `Command` with `int(...)` conversion at the
positions hard-coded per token count.  A line of six or more tokens falls
off the end of the `if`/`elif` chain, so `__next__` returns Python `None`
as the parsed item.  Files are modelled as their list of lines (without
trailing newlines). -/

/-- Python `\s` on the characters that can occur in a source line. -/
def isPySpace (c : Char) : Bool :=
  c == ' ' || c == '\t' || c == '\n' || c == '\r' || c == Char.ofNat 11 || c == Char.ofNat 12

/-- `re.sub('//.*$', '', line)`: drop everything from the first `//`. -/
def stripComment : List Char → List Char
  | [] => []
  | '/' :: '/' :: _ => []
  | c :: rest => c :: stripComment rest

/-- `line.strip()`. -/
def pyStrip (s : List Char) : List Char :=
  ((s.dropWhile isPySpace).reverse.dropWhile isPySpace).reverse

/-- `re.sub('\s+', ' ', line)`: collapse each whitespace run to one space. -/
def collapseWs : List Char → List Char
  | [] => []
  | [c] => if isPySpace c then [' '] else [c]
  | c₁ :: c₂ :: rest =>
    if isPySpace c₁ && isPySpace c₂ then collapseWs (c₂ :: rest)
    else (if isPySpace c₁ then ' ' else c₁) :: collapseWs (c₂ :: rest)

/-- `line.split(' ')`: split on single spaces, keeping empty pieces. -/
def splitSp : List Char → List (List Char)
  | [] => [[]]
  | c :: rest =>
    match splitSp rest with
    | [] => []
    | t :: ts => if c = ' ' then [] :: t :: ts else (c :: t) :: ts

def digitsToNat : List Char → Nat → Option Nat
  | [], acc => some acc
  | c :: rest, acc =>
    if c.isDigit then digitsToNat rest (acc * 10 + (c.toNat - '0'.toNat)) else none

/-- Python `int(s)` on a whitespace-free token: an optional sign followed by
at least one decimal digit.  (Python additionally accepts underscore digit
separators and non-ASCII digits; those do not occur in the inputs treated
here.) -/
def pyInt (s : String) : Option Int :=
  match s.data with
  | '-' :: d :: rest => (digitsToNat (d :: rest) 0).map (fun n => -(n : Int))
  | '+' :: d :: rest => (digitsToNat (d :: rest) 0).map (fun n => (n : Int))
  | d :: rest => (digitsToNat (d :: rest) 0).map (fun n => (n : Int))
  | [] => none

/-- The message of the `ValueError` raised by `int(tok)` on a bad literal. -/
def valueErrorMsg (tok : String) : String :=
  "ValueError: invalid literal for int() with base 10: '" ++ tok ++ "'"

/-- Result of parsing one line: skipped (blank after comment stripping, or
a token count matched by no branch of the `if`/`elif` chain — then no
branch returns and the `while True` loop just reads the next line), a
`Command`, or a raised `ValueError`. -/
inductive LineRes where
  | skip
  | cmd (c : Command)
  | err (msg : String)
deriving DecidableEq, Repr

/-- The token-count dispatch of `Parser.__next__` (lines 67–76): positions
converted with `int(...)` are exactly `components[2]` (3-, 4- and 5-token
lines), `components[3]` (4-token lines) and `components[4]` (5-token
lines).  A line of six or more tokens matches no branch, so nothing is
returned and the enclosing `while True` loop moves on to the next line:
the line is silently skipped. -/
def parseComponents (cs : List String) : LineRes :=
  match cs with
  | [c0] => .cmd ⟨c0, []⟩
  | [c0, c1] => .cmd ⟨c0, [.str c1]⟩
  | [c0, c1, c2] =>
    match pyInt c2 with
    | some n2 => .cmd ⟨c0, [.str c1, .int n2]⟩
    | none => .err (valueErrorMsg c2)
  | [c0, c1, c2, c3] =>
    match pyInt c2 with
    | some n2 =>
      match pyInt c3 with
      | some n3 => .cmd ⟨c0, [.str c1, .int n2, .int n3]⟩
      | none => .err (valueErrorMsg c3)
    | none => .err (valueErrorMsg c2)
  | [c0, c1, c2, c3, c4] =>
    match pyInt c2 with
    | some n2 =>
      match pyInt c4 with
      | some n4 => .cmd ⟨c0, [.str c1, .int n2, .str c3, .int n4]⟩
      | none => .err (valueErrorMsg c4)
    | none => .err (valueErrorMsg c2)
  | _ => .skip

/-- One iteration of `Parser.__next__` on a line. -/
def parseLine (line : String) : LineRes :=
  let stripped := pyStrip (stripComment line.data)
  if stripped = [] then .skip
  else
    let norm := collapseWs stripped
    parseComponents ((splitSp norm).map (fun w => (⟨w⟩ : String)))

/-- Parse a whole file into the stream of commands the
`for command in parser` loop sees; skipped lines (blank, comment-only or
over-long) contribute nothing, and a `ValueError` aborts the iteration
(fail fast). -/
def parseFileLines (lines : List String) : Except String (List Command) :=
  match lines with
  | [] => .ok []
  | l :: rest =>
    match parseLine l with
    | .skip => parseFileLines rest
    | .cmd c => (parseFileLines rest).map (fun cs => c :: cs)
    | .err m => .error m

/-! ### Preassembler -/

/-- `class Function` (fields of `Function.__init__`).  `dependencies` is a
Python `set`, modelled as an insertion-ordered duplicate-free list; its
iteration order within a running Python process is unspecified, so
downstream code that iterates it is parameterised by an enumeration
order. -/
structure Function where
  filename : String
  function_name : String
  commands : List Command
  dependencies : List String
deriving DecidableEq, Repr

/-- `Function.append`: push the command; a `call`/`call-ext` also records
its target in the dependency set (`command.args[0]`;  Python raises
`IndexError` when the argument is missing, and a non-string target would
make the later table lookups fail — both modelled as errors). -/
def Function.append (f : Function) (c : Command) : Except String Function :=
  let f' := { f with commands := f.commands ++ [c] }
  if c.command = "call" || c.command = "call-ext" then
    match c.args.head? with
    | some (.str n) =>
      .ok { f' with dependencies :=
              if n ∈ f'.dependencies then f'.dependencies else f'.dependencies ++ [n] }
    | some (.int _) => .error "TypeError: non-string call target"
    | none => .error "IndexError: tuple index out of range"
  else
    .ok f'

/-- Insert-or-replace in the function table (Python dict assignment). -/
def tblInsert (tbl : List (String × Function)) (k : String) (v : Function) :
    List (String × Function) :=
  match tbl with
  | [] => [(k, v)]
  | (k', v') :: rest => if k' = k then (k, v) :: rest else (k', v') :: tblInsert rest k v

/-- `class Preassembler`: the function table and the name of the current
function (the Python object reference is modelled by its table key). -/
structure Preassembler where
  functions : List (String × Function)
  current_function : Option String
deriving Repr

/-- `Preassembler.add`: a `function`/`function-ext` command registers a new
current `Function` under its name; every command (including the declaration
itself) is appended to the current function.  A command before any
declaration hits Python `None.append` — an `AttributeError`. -/
def Preassembler.add (p : Preassembler) (filename : String) (c : Command) :
    Except String Preassembler :=
  if c.command = "function" || c.command = "function-ext" then
    match c.args.head? with
    | some (.str name) => do
      let fn : Function := ⟨filename, name, [], []⟩
      let fn ← fn.append c
      .ok ⟨tblInsert p.functions name fn, some name⟩
    | _ => .error "TypeError: non-string function name"
  else
    match p.current_function with
    | none => .error "AttributeError: 'NoneType' object has no attribute 'append'"
    | some cur =>
      match p.functions.lookup cur with
      | none => .error "KeyError: current function lost"
      | some fn => do
        let fn ← fn.append c
        .ok ⟨tblInsert p.functions cur fn, p.current_function⟩

/-- `os.path.basename`: the part after the last `/`. -/
def pyBasename (s : String) : List Char :=
  (s.data.reverse.takeWhile (fun c => c ≠ '/')).reverse

/-- Helper for `splitext`: drop the reversed characters through the first
`.`; `none` when there is no dot. -/
def dropExtRev : List Char → Option (List Char)
  | [] => none
  | '.' :: rest => some rest
  | _ :: rest => dropExtRev rest

/-- `os.path.splitext(os.path.basename(path))[0]`: the file stem. -/
def pyStem (path : String) : String :=
  let base := pyBasename path
  match dropExtRev base.reverse with
  | some revRoot => if revRoot = [] then ⟨base⟩ else ⟨revRoot.reverse⟩
  | none => ⟨base⟩

/-- The pre-parse loop of `translate` (lines 1260–1268): parse each file and
feed every command the parser yields to `Preassembler.add`. -/
def preassembleFiles (files : List (String × List String)) :
    Except String Preassembler := do
  let mut0 : Preassembler := ⟨[], none⟩
  files.foldlM (fun p (file : String × List String) => do
    let stem := pyStem file.1
    let items ← parseFileLines file.2
    items.foldlM (fun p c => p.add stem c) p) mut0

/-! ### Reachability

`Preassembler.reachable_functions`: worklist closure of the dependency
edges.  `seen` is the Python set (as an insertion-ordered list), and
`frontier` is kept reversed so that Python's `frontier.pop()` from the tail
is the head here and `frontier.extend(deps)` prepends `deps.reverse`.
Looking up a missing callee raises `KeyError`.  The fuel only makes the
recursion structural (so the kernel can evaluate it); `reachFuel` is an
upper bound on the number of worklist steps, since every step pops one
frontier entry and entries are pushed only once per table key. -/

def reachAux (tbl : List (String × Function)) :
    Nat → List String → List String → Except String (List String)
  | 0, _, _ => .error "RecursionLimit"
  | _ + 1, seen, [] => .ok seen
  | fuel + 1, seen, n :: frontier =>
    if n ∈ seen then reachAux tbl fuel seen frontier
    else
      match tbl.lookup n with
      | none => .error ("KeyError: '" ++ n ++ "'")
      | some fn => reachAux tbl fuel (n :: seen) (fn.dependencies.reverse ++ frontier)

def reachFuel (tbl : List (String × Function)) : Nat :=
  tbl.foldl (fun acc kv => acc + 2 + kv.2.dependencies.length) 2

/-- `Preassembler.reachable_functions(start_function)`.  The returned list
is the `seen` set in insertion order; Python iterates it in an order the
language does not fix, so consumers take an enumeration order that is a
permutation of this list. -/
def reachableFns (tbl : List (String × Function)) (root : String) :
    Except String (List String) :=
  reachAux tbl (reachFuel tbl) [] [root]

/-- Transitive reachability from `root` along the dependency out-edges of
the function table — the specification's notion of "transitively called
from `Sys.init`". -/
inductive Reaches (tbl : List (String × Function)) (root : String) : String → Prop
  | refl : Reaches tbl root root
  | step {a b : String} {fn : Function} :
      Reaches tbl root a → tbl.lookup a = some fn → b ∈ fn.dependencies →
      Reaches tbl root b

/-! ### Optimizer: accessor inlining -/

/-- `is_constant_accessor`. -/
def isConstantAccessor (f : Function) : Bool :=
  matchCode [patFunctionAny, patPushConstantAny, patReturn] f.commands noExclude

/-- `is_static_accessor`. -/
def isStaticAccessor (f : Function) : Bool :=
  matchCode [patFunctionAny, patPushStaticAny, patReturn] f.commands noExclude

/-- `is_member_accessor`. -/
def isMemberAccessor (f : Function) : Bool :=
  matchCode [patFunctionAny, patPushArgument0, patPopPointer0, patPushThisAny, patReturn]
    f.commands noExclude

/-- `function.commands[i]` / `...args[j]` as used by `try_inline` (the match
guarantees the indices exist). -/
def cmdAt (f : Function) (i : Nat) : Command :=
  f.commands.getD i ⟨"", []⟩

/-- `Optimizer.try_inline`. -/
def tryInline (f : Function) : Option (List Command) :=
  if isConstantAccessor f then some [cmdAt f 1]
  else if isStaticAccessor f then some [cmdAt f 1]
  else if isMemberAccessor f then
    some [⟨"pop", [.str "pointer", .int 1]⟩,
          ⟨"push", [.str "that", (cmdAt f 3).args.getD 1 (.str "IndexError")]⟩]
  else none

/-- The loop body of `Optimizer.inline`: rebuild the command list, expanding
each `call`/`call-ext` of an inlinable accessor into
`inline-call <callee file> <callee name>; <body>; inline-return <caller file>
<caller name>`, and rebuild the dependency list from the call sites that
remain (an inlined call site contributes no dependency). -/
def inlineCmds (tbl : List (String × Function)) (callerFile callerName : String) :
    List Command → Except String (List Command × List String)
  | [] => .ok ([], [])
  | c :: rest =>
    if c.command = "call" || c.command = "call-ext" then
      match c.args.head? with
      | some (.str g) =>
        match tbl.lookup g with
        | none => .error ("KeyError: '" ++ g ++ "'")
        | some gfn =>
          match tryInline gfn with
          | some body => do
            let (cs, ds) ← inlineCmds tbl callerFile callerName rest
            .ok (⟨"inline-call", [.str gfn.filename, .str gfn.function_name]⟩ ::
                   (body ++ (⟨"inline-return", [.str callerFile, .str callerName]⟩ :: cs)),
                 ds)
          | none => do
            let (cs, ds) ← inlineCmds tbl callerFile callerName rest
            .ok (c :: cs, g :: ds)
      | _ => .error "TypeError: non-string call target"
    else do
      let (cs, ds) ← inlineCmds tbl callerFile callerName rest
      .ok (c :: cs, ds)

namespace Optimizer

/-- `Optimizer.inline(function, functions)`: replaces the function's
command list and its dependency collection (now a plain list). -/
def inline (tbl : List (String × Function)) (f : Function) :
    Except String Function := do
  let (cs, ds) ← inlineCmds tbl f.filename f.function_name f.commands
  .ok { f with commands := cs, dependencies := ds }

/-- `Optimizer.optimize(function)`. -/
def optimize (f : Function) : Function :=
  { f with commands := optimizeCommands f.commands }

end Optimizer

/-- The inlining loop of `translate` (lines 1272–1274): for each reachable
name, in the (set-iteration) order `order`, rewrite that table entry in
place. -/
def inlinePass (tbl : List (String × Function)) (order : List String) :
    Except String (List (String × Function)) :=
  order.foldlM (fun t name =>
    match t.lookup name with
    | none => .error ("KeyError: '" ++ name ++ "'")
    | some fn => do
      let fn' ← Optimizer.inline t fn
      .ok (tblInsert t name fn')) tbl

/-- The peephole loop of `translate` (lines 1275–1277). -/
def optimizePass (tbl : List (String × Function)) (order : List String) :
    Except String (List (String × Function)) :=
  order.foldlM (fun t name =>
    match t.lookup name with
    | none => .error ("KeyError: '" ++ name ++ "'")
    | some fn => .ok (tblInsert t name (Optimizer.optimize fn))) tbl

/-! ### Code generator (`ASMTranslator`)

The emitter's mutable naming state and the per-opcode lowering methods.
Fallible Python operations (list/dict indexing, the `NameError` /
`UnboundLocalError` paths in `_poke`, `getattr` dispatch on an unknown
opcode) are `Except`; the `'???'` sentinel of the dispatch tables is a
*value* in Python and stays one here. -/

def tempRegister (i : Int) : String := "@" ++ toString (5 + i)

/-- `_pointer_registers[i]` with Python list indexing (negative indices wrap,
out-of-range raises `IndexError`). -/
def pointerRegister (i : Int) : Except String String :=
  if i = 0 || i = -2 then .ok "@THIS"
  else if i = 1 || i = -1 then .ok "@THAT"
  else .error "IndexError: list index out of range"

def memorySegments : List (String × String) :=
  [("local", "LCL"), ("argument", "ARG"), ("this", "THIS"), ("that", "THAT")]

def isMemorySegment (seg : String) : Bool := (memorySegments.lookup seg).isSome

def memorySegmentAddress (seg : String) : Except String String :=
  match memorySegments.lookup seg with
  | some r => .ok ("@" ++ r)
  | none => .error ("KeyError: '" ++ seg ++ "'")

/-- The emitter state of `ASMTranslator.__init__`. -/
structure ASMTranslator where
  filename : String
  function_name : String
  call_index : Nat
  label_index : Nat
deriving DecidableEq, Repr

namespace ASMTranslator

def init : ASMTranslator := ⟨"", "", 0, 0⟩

def staticAddress (t : ASMTranslator) (i : Int) : String :=
  "@" ++ t.filename ++ "." ++ toString i

def labelAddress (t : ASMTranslator) (label : String) : String :=
  "@" ++ t.function_name ++ "$" ++ label

def labelLabel (t : ASMTranslator) (label : String) : String :=
  "(" ++ t.function_name ++ "$" ++ label ++ ")"

def functionDeclarationLabel (t : ASMTranslator) : String :=
  "(" ++ t.function_name ++ ")"

/-- `next_return_address_label`: consumes `call_index` (which is *never*
reset), yielding the `@label` and `(label)` forms. -/
def nextReturnAddressLabel (t : ASMTranslator) : ASMTranslator × String × String :=
  let label := t.function_name ++ "$ret." ++ toString t.call_index
  ({ t with call_index := t.call_index + 1 }, "@" ++ label, "(" ++ label ++ ")")

/-- `next_address_label(name)`: consumes `label_index`. -/
def nextAddressLabel (t : ASMTranslator) (name : String) : ASMTranslator × String × String :=
  let label := t.filename ++ "." ++ name ++ "." ++ toString t.label_index
  ({ t with label_index := t.label_index + 1 }, "@" ++ label, "(" ++ label ++ ")")

/-- `_ldd`. -/
def ldd (t : ASMTranslator) (segment : String) (i : Int) : Except String (List String) :=
  if segment = "constant" then
    .ok (if i = 0 then ["D=0"] else if i = 1 then ["D=1"]
         else ["@" ++ toString i, "D=A"])
  else if segment = "constant~" then .ok ["@" ++ toString i, "D=!A"]
  else if segment = "constant-" then .ok ["@" ++ toString i, "D=-A"]
  else if segment = "static" then .ok [t.staticAddress i, "D=M"]
  else if segment = "temp" then .ok [tempRegister i, "D=M"]
  else if segment = "pointer" then do
    let r ← pointerRegister i
    .ok [r, "D=M"]
  else if isMemorySegment segment then do
    let a ← memorySegmentAddress segment
    if i = 0 then .ok [a, "A=M", "D=M"]
    else if i = 1 then .ok [a, "A=M+1", "D=M"]
    else .ok [a, "D=M", "@" ++ toString i, "A=D+A", "D=M"]
  else .ok ["???"]

/-- `_sdd` (`op` is Python's defaulted `op='M=D'`, always passed as such by
the callers in the source). -/
def sdd (t : ASMTranslator) (segment : String) (i : Int) (op : String) :
    Except String (List String) :=
  if segment = "static" then .ok [t.staticAddress i, op]
  else if segment = "temp" then .ok [tempRegister i, op]
  else if segment = "pointer" then do
    let r ← pointerRegister i
    .ok [r, op]
  else if isMemorySegment segment then do
    let a ← memorySegmentAddress segment
    if i = 0 then .ok [a, "A=M", op]
    else if i < 10 then
      .ok ([a, "A=M+1"] ++ List.replicate (i - 1).toNat "A=A+1" ++ [op])
    else
      .ok ["@R14", "M=D", a, "D=M", "@" ++ toString i, "D=D+A", "@R13", "M=D",
           "@R14", "D=M", "@R13", "A=M", op]
  else .ok ["???"]

/-- `_push`. -/
def push (t : ASMTranslator) (segment : String) (i : Int) :
    Except String (List String) := do
  let (value, op) ←
    if segment = "constant" then
      .ok (if i = 0 then (([] : List String), "M=0")
           else if i = 1 then ([], "M=1")
           else (["@" ++ toString i, "D=A"], "M=D"))
    else do
      let v ← t.ldd segment i
      .ok (v, "M=D")
  .ok (value ++ ["@SP", "AM=M+1", "A=A-1", op])

/-- `_pop`. -/
def pop (t : ASMTranslator) (segment : String) (i : Int) :
    Except String (List String) := do
  let s ← t.sdd segment i "M=D"
  .ok (["@SP", "AM=M-1", "D=M"] ++ s)

/-- `_tee`. -/
def tee (t : ASMTranslator) (segment : String) (i : Int) :
    Except String (List String) := do
  let s ← t.sdd segment i "M=D"
  .ok (["@SP", "A=M-1", "D=M"] ++ s)

/-- `_sto` (dead code in the source; reachable only as an explicit `sto`
opcode).  Pointer-based segments with `i ≥ 2` fall through to `'???'`. -/
def sto (t : ASMTranslator) (segment : String) (i : Int) (op : String) :
    Except String (List String) :=
  if segment = "constant" then .ok ["@" ++ toString i, op]
  else if segment = "static" then .ok [t.staticAddress i, "A=M", op]
  else if isMemorySegment segment then do
    let a ← memorySegmentAddress segment
    if i = 0 then .ok [a, "A=M", "A=M", op]
    else if i = 1 then .ok [a, "A=M+1", "A=M", op]
    else .ok ["???"]
  else .ok ["???"]

/-- `_inc`. -/
def inc (t : ASMTranslator) (segment : String) (i : Int) (step : Int) :
    Except String (List String) := do
  let (value, op) :=
    if step > 1 then (["@" ++ toString step, "D=A"], "M=M+D") else ([], "M=M+1")
  if segment = "static" then .ok (value ++ [t.staticAddress i, op])
  else if segment = "temp" then .ok (value ++ [tempRegister i, op])
  else if segment = "pointer" then do
    let r ← pointerRegister i
    .ok (value ++ [r, op])
  else if isMemorySegment segment then do
    let a ← memorySegmentAddress segment
    if i = 0 then .ok (value ++ [a, "A=M", op])
    else if i = 1 then .ok (value ++ [a, "A=M+1", op])
    else if step = 1 then .ok [a, "D=M", "@" ++ toString i, "A=D+A", "M=M+1"]
    else .ok ["???"]
  else .ok ["???"]

/-- `_dec`. -/
def dec (t : ASMTranslator) (segment : String) (i : Int) (step : Int) :
    Except String (List String) := do
  let (value, op) :=
    if step > 1 then (["@" ++ toString step, "D=A"], "M=M-D") else ([], "M=M-1")
  if segment = "static" then .ok (value ++ [t.staticAddress i, op])
  else if segment = "temp" then .ok (value ++ [tempRegister i, op])
  else if segment = "pointer" then do
    let r ← pointerRegister i
    .ok (value ++ [r, op])
  else if isMemorySegment segment then do
    let a ← memorySegmentAddress segment
    if i = 0 then .ok (value ++ [a, "A=M", op])
    else if i = 1 then .ok (value ++ [a, "A=M+1", op])
    else if step = 1 then .ok [a, "D=M", "@" ++ toString i, "A=D+A", "M=M-1"]
    else .ok ["???"]
  else .ok ["???"]

/-- `_inv`. -/
def inv (t : ASMTranslator) (segment : String) (i : Int) :
    Except String (List String) := do
  if segment = "static" then .ok [t.staticAddress i, "M=!M"]
  else if segment = "temp" then .ok [tempRegister i, "M=!M"]
  else if segment = "pointer" then do
    let r ← pointerRegister i
    .ok [r, "M=!M"]
  else if isMemorySegment segment then do
    let a ← memorySegmentAddress segment
    if i = 0 then .ok [a, "A=M", "M=!M"]
    else if i = 1 then .ok [a, "A=M+1", "M=!M"]
    else .ok [a, "D=M", "@" ++ toString i, "A=D+A", "M=!M"]
  else .ok ["???"]

/-- `_poke`.  The `value`/`op` pair is unbound when `from_segment` is not a
constant pseudo-segment (`UnboundLocalError` at first use), and the
pointer-based destination branches with `i ≠ 0` reference the undefined
name `segment` (`NameError`); an unknown destination returns `'???'`
without touching `value`. -/
def poke (t : ASMTranslator) (to_segment : String) (i : Int)
    (from_segment : String) (j : Int) : Except String (List String) := do
  let valueOp : Option (List String × String) :=
    if from_segment = "constant" then
      some (if j = 0 then (([] : List String), "M=0")
            else if j = 1 then ([], "M=1")
            else (["@" ++ toString j, "D=A"], "M=D"))
    else if from_segment = "constant~" then some (["@" ++ toString j, "D=!A"], "M=D")
    else if from_segment = "constant-" then some (["@" ++ toString j, "D=-A"], "M=D")
    else none
  let getVO : Except String (List String × String) :=
    match valueOp with
    | some vo => .ok vo
    | none => .error "UnboundLocalError: local variable 'value' referenced before assignment"
  if to_segment = "constant" then do
    let (value, op) ← getVO
    .ok (value ++ ["@" ++ toString i, op])
  else if to_segment = "static" then do
    let (value, op) ← getVO
    .ok (value ++ [t.staticAddress i, "A=M", op])
  else if isMemorySegment to_segment then
    if i = 0 then do
      let (value, op) ← getVO
      let a ← memorySegmentAddress to_segment
      .ok (value ++ [a, "A=M", "A=M", op])
    else .error "NameError: name 'segment' is not defined"
  else .ok ["???"]

/-- `_drop`. -/
def dropAsm : List String := ["@SP", "AM=M-1"]

/-- `_eq`. -/
def eqAsm (t : ASMTranslator) : ASMTranslator × List String :=
  let (t, address, label) := t.nextAddressLabel "JEQ"
  (t, ["@SP", "AM=M-1", "D=M", "A=A-1", "D=M-D", address, "D; JEQ", "D=-1",
       label, "@SP", "A=M-1", "M=!D"])

/-- `_lt`, `_lte`, `_gt`, `_gte` share one template over the label kind and
jump condition. -/
def cmpAsm (t : ASMTranslator) (kind jump : String) : ASMTranslator × List String :=
  let (t, address, label) := t.nextAddressLabel kind
  (t, ["@SP", "AM=M-1", "D=M", "A=A-1", "D=M-D", address, jump, "A=A+1",
       "D=0; JMP", label, "D=-1", "@SP", "A=M-1", "M=D"])

/-- The shared load of the five `_if_CMP_goto` methods (the five bodies in
the source are identical up to the jump mnemonic; `_if_gte_goto` is defined
twice with identical bodies, the second definition winning). -/
def ifCmpGotoLoad (t : ASMTranslator) (segment : String) (i : Int) :
    Except String (List String × String) :=
  if segment = "constant" then
    .ok (if i = 0 then (([] : List String), "D=M")
         else if i = 1 then ([], "D=M-1")
         else (["@" ++ toString i, "D=A"], "D=M-D"))
  else do
    let l ← t.ldd segment i
    .ok (l, "D=M-D")

def ifCmpGoto (t : ASMTranslator) (segment : String) (i : Int) (l : String)
    (jump : String) : Except String (List String) := do
  let (load, op) ← t.ifCmpGotoLoad segment i
  .ok (load ++ ["@SP", "AM=M-1", op, t.labelAddress l, jump])

/-- `_if_goto`. -/
def ifGoto (t : ASMTranslator) (l : String) : List String :=
  ["@SP", "AM=M-1", "D=M", t.labelAddress l, "D; JNE"]

/-- `_if_goto_not`. -/
def ifGotoNot (t : ASMTranslator) (l : String) : List String :=
  ["@SP", "AM=M-1", "D=M", t.labelAddress l, "D; JEQ"]

/-- The local-variable zeroing epilogue shared by `_function` and
`_function_ext` (empty when `vars == 0`; a negative count gives the empty
Python `range`). -/
def functionVars (vars : Int) : List String :=
  if vars = 0 then []
  else ["@SP", "A=M"] ++ (List.replicate vars.toNat ["M=0", "AD=A+1"]).flatten ++
       ["@SP", "M=D"]

/-- `_function`. -/
def functionAsm (t : ASMTranslator) (function_name : String) (vars : Int) :
    ASMTranslator × List String :=
  let t := { t with function_name := function_name }
  (t, [t.functionDeclarationLabel] ++ functionVars vars)

/-- `_function_ext`.  Note the return-address label is allocated *before*
`self.function_name` is updated, so it is named after the previously
current function. -/
def functionExtAsm (t : ASMTranslator) (function_name : String) (vars args : Int) :
    ASMTranslator × List String :=
  let (t, address, label) := t.nextReturnAddressLabel
  let t := { t with function_name := function_name }
  let setup :=
    [t.functionDeclarationLabel] ++
    (if function_name ≠ "Sys.init" then
      ["@R13", "M=D", "@" ++ toString (5 + args), "D=A", "@R14", "M=D",
       address, "D=A", "@save_stack", "0; JMP", label]
     else [])
  (t, setup ++ functionVars vars)

/-- `_call`. -/
def callAsm (t : ASMTranslator) (function_name : String) (args : Int) :
    ASMTranslator × List String :=
  let (t, address, label) := t.nextReturnAddressLabel
  (t, ["@" ++ function_name, "D=A", "@R13", "M=D", "@" ++ toString (5 + args),
       "D=A", "@R14", "M=D", address, "D=A", "@save_stack", "0; JMP", label])

/-- `_call_ext`. -/
def callExtAsm (t : ASMTranslator) (function_name : String) :
    ASMTranslator × List String :=
  let (t, address, label) := t.nextReturnAddressLabel
  (t, [address, "D=A", "@" ++ function_name, "0; JMP", label])

/-- `_push_register`. -/
def pushRegister (address : String) : List String :=
  [address, "D=M", "@SP", "AM=M+1", "A=A-1", "M=D"]

/-- `_pop_register_lcl`. -/
def popRegisterLcl (address : String) : List String :=
  ["@LCL", "AM=M-1", "D=M", address, "M=D"]

/-- `_save_stack` (its `next_address_label` result is unused but still
consumes `label_index`). -/
def saveStackAsm (t : ASMTranslator) : ASMTranslator × List String :=
  let (t, _address, _label) := t.nextAddressLabel "save_stack"
  (t, ["(save_stack)", "@R15", "M=D", "@R13", "D=M", "@SP", "AM=M+1", "A=A-1", "M=D"] ++
      pushRegister "@LCL" ++ pushRegister "@ARG" ++
      pushRegister "@THIS" ++ pushRegister "@THAT" ++
      ["@SP", "D=M", "@R14", "D=D-M", "@ARG", "M=D", "@SP", "D=M", "@LCL", "M=D",
       "@R15", "A=M", "0; JMP"])

/-- `_pop_stack`. -/
def popStackAsm : List String :=
  ["(pop_stack)", "@LCL", "D=M", "@5", "A=D-A", "D=M", "@R13", "M=D",
   "@SP", "A=M-1", "D=M", "@ARG", "A=M", "M=D", "D=A+1", "@SP", "M=D"] ++
  popRegisterLcl "@THAT" ++ popRegisterLcl "@THIS" ++
  popRegisterLcl "@ARG" ++ popRegisterLcl "@LCL" ++
  ["@R13", "A=M", "0; JMP"]

/-- `_return`. -/
def returnAsm : List String := ["@pop_stack", "0; JMP"]

/-- `_init_vm` (consumes one `label_index` itself — unused — plus the one
consumed by `_save_stack`). -/
def initVmAsm (t : ASMTranslator) : ASMTranslator × List String :=
  let (t, _address, _label) := t.nextAddressLabel "init_vm"
  let (t, save) := t.saveStackAsm
  (t, ["@256", "D=A", "@SP", "M=D", "@Sys.init", "0; JMP"] ++ save ++ popStackAsm)

/-- `_inline_call` / `_inline_return`: swap the naming context, emit
nothing. -/
def inlineSwap (t : ASMTranslator) (filename function_name : String) : ASMTranslator :=
  { t with filename := filename, function_name := function_name }

/-- The `TypeError` raised when a resolved handler is applied to an
argument tuple of the wrong shape. -/
def arityError (name : String) : Except String (ASMTranslator × List String) :=
  .error ("TypeError: bad arguments for opcode '" ++ name ++ "'")

/-- The type of an opcode handler: emitter state and argument tuple to new
state and instruction list. -/
abbrev Handler : Type :=
  ASMTranslator → List Arg → Except String (ASMTranslator × List String)

/-- The opcode handlers of `ASMTranslator` — one entry per `_<opcode>`
method usable through `Command.visit`'s `getattr` dispatch (the
duplicated `_if_gte_goto` definition collapses to one entry, and the
helper methods that are not opcode handlers are not entries). -/
def opcodeHandlers : List (String × Handler) :=
  [("add", fun (t : ASMTranslator) (args : List Arg) =>
      show Except String (ASMTranslator × List String) from
      match args with
      | [] => Except.ok (t, ["@SP", "AM=M-1", "D=M", "A=A-1", "M=D+M"])
      | _ => arityError "add"),
   ("sub", fun (t : ASMTranslator) (args : List Arg) =>
      show Except String (ASMTranslator × List String) from
      match args with
      | [] => Except.ok (t, ["@SP", "AM=M-1", "D=M", "A=A-1", "M=M-D"])
      | _ => arityError "sub"),
   ("neg", fun (t : ASMTranslator) (args : List Arg) =>
      show Except String (ASMTranslator × List String) from
      match args with
      | [] => Except.ok (t, ["@SP", "A=M-1", "M=-M"])
      | _ => arityError "neg"),
   ("and", fun (t : ASMTranslator) (args : List Arg) =>
      show Except String (ASMTranslator × List String) from
      match args with
      | [] => Except.ok (t, ["@SP", "AM=M-1", "D=M", "A=A-1", "M=M&D"])
      | _ => arityError "and"),
   ("or", fun (t : ASMTranslator) (args : List Arg) =>
      show Except String (ASMTranslator × List String) from
      match args with
      | [] => Except.ok (t, ["@SP", "AM=M-1", "D=M", "A=A-1", "M=M|D"])
      | _ => arityError "or"),
   ("not", fun (t : ASMTranslator) (args : List Arg) =>
      show Except String (ASMTranslator × List String) from
      match args with
      | [] => Except.ok (t, ["@SP", "A=M-1", "M=!M"])
      | _ => arityError "not"),
   ("eq", fun (t : ASMTranslator) (args : List Arg) =>
      show Except String (ASMTranslator × List String) from
      match args with
      | [] => Except.ok t.eqAsm
      | _ => arityError "eq"),
   ("lt", fun (t : ASMTranslator) (args : List Arg) =>
      show Except String (ASMTranslator × List String) from
      match args with
      | [] => Except.ok (t.cmpAsm "JLT" "D=D; JLT")
      | _ => arityError "lt"),
   ("lte", fun (t : ASMTranslator) (args : List Arg) =>
      show Except String (ASMTranslator × List String) from
      match args with
      | [] => Except.ok (t.cmpAsm "JLE" "D=D; JLE")
      | _ => arityError "lte"),
   ("gt", fun (t : ASMTranslator) (args : List Arg) =>
      show Except String (ASMTranslator × List String) from
      match args with
      | [] => Except.ok (t.cmpAsm "JGT" "D=D; JGT")
      | _ => arityError "gt"),
   ("gte", fun (t : ASMTranslator) (args : List Arg) =>
      show Except String (ASMTranslator × List String) from
      match args with
      | [] => Except.ok (t.cmpAsm "JGE" "D=D; JGE")
      | _ => arityError "gte"),
   ("push", fun (t : ASMTranslator) (args : List Arg) =>
      show Except String (ASMTranslator × List String) from
      match args with
      | [.str seg, .int i] => (t.push seg i).map (t, ·)
      | _ => arityError "push"),
   ("pop", fun (t : ASMTranslator) (args : List Arg) =>
      show Except String (ASMTranslator × List String) from
      match args with
      | [.str seg, .int i] => (t.pop seg i).map (t, ·)
      | _ => arityError "pop"),
   ("ldd", fun (t : ASMTranslator) (args : List Arg) =>
      show Except String (ASMTranslator × List String) from
      match args with
      | [.str seg, .int i] => (t.ldd seg i).map (t, ·)
      | _ => arityError "ldd"),
   ("sdd", fun (t : ASMTranslator) (args : List Arg) =>
      show Except String (ASMTranslator × List String) from
      match args with
      | [.str seg, .int i] => (t.sdd seg i "M=D").map (t, ·)
      | _ => arityError "sdd"),
   ("tee", fun (t : ASMTranslator) (args : List Arg) =>
      show Except String (ASMTranslator × List String) from
      match args with
      | [.str seg, .int i] => (t.tee seg i).map (t, ·)
      | _ => arityError "tee"),
   ("sto", fun (t : ASMTranslator) (args : List Arg) =>
      show Except String (ASMTranslator × List String) from
      match args with
      | [.str seg, .int i] => (t.sto seg i "M=D").map (t, ·)
      | _ => arityError "sto"),
   ("poke", fun (t : ASMTranslator) (args : List Arg) =>
      show Except String (ASMTranslator × List String) from
      match args with
      | [.str ts, .int i, .str fs, .int j] => (t.poke ts i fs j).map (t, ·)
      | _ => arityError "poke"),
   ("inc", fun (t : ASMTranslator) (args : List Arg) =>
      show Except String (ASMTranslator × List String) from
      match args with
      | [.str seg, .int i, .int step] => (t.inc seg i step).map (t, ·)
      | _ => arityError "inc"),
   ("dec", fun (t : ASMTranslator) (args : List Arg) =>
      show Except String (ASMTranslator × List String) from
      match args with
      | [.str seg, .int i, .int step] => (t.dec seg i step).map (t, ·)
      | _ => arityError "dec"),
   ("inv", fun (t : ASMTranslator) (args : List Arg) =>
      show Except String (ASMTranslator × List String) from
      match args with
      | [.str seg, .int i] => (t.inv seg i).map (t, ·)
      | _ => arityError "inv"),
   ("drop", fun (t : ASMTranslator) (args : List Arg) =>
      show Except String (ASMTranslator × List String) from
      match args with
      | [] => Except.ok (t, dropAsm)
      | _ => arityError "drop"),
   ("label", fun (t : ASMTranslator) (args : List Arg) =>
      show Except String (ASMTranslator × List String) from
      match args with
      | [.str l] => Except.ok (t, [t.labelLabel l])
      | _ => arityError "label"),
   ("goto", fun (t : ASMTranslator) (args : List Arg) =>
      show Except String (ASMTranslator × List String) from
      match args with
      | [.str l] => Except.ok (t, [t.labelAddress l, "0; JMP"])
      | _ => arityError "goto"),
   ("if-goto", fun (t : ASMTranslator) (args : List Arg) =>
      show Except String (ASMTranslator × List String) from
      match args with
      | [.str l] => Except.ok (t, t.ifGoto l)
      | _ => arityError "if-goto"),
   ("if-goto-not", fun (t : ASMTranslator) (args : List Arg) =>
      show Except String (ASMTranslator × List String) from
      match args with
      | [.str l] => Except.ok (t, t.ifGotoNot l)
      | _ => arityError "if-goto-not"),
   ("if-eq-goto", fun (t : ASMTranslator) (args : List Arg) =>
      show Except String (ASMTranslator × List String) from
      match args with
      | [.str seg, .int i, .str l] => (t.ifCmpGoto seg i l "D; JEQ").map (t, ·)
      | _ => arityError "if-eq-goto"),
   ("if-lt-goto", fun (t : ASMTranslator) (args : List Arg) =>
      show Except String (ASMTranslator × List String) from
      match args with
      | [.str seg, .int i, .str l] => (t.ifCmpGoto seg i l "D; JLT").map (t, ·)
      | _ => arityError "if-lt-goto"),
   ("if-lte-goto", fun (t : ASMTranslator) (args : List Arg) =>
      show Except String (ASMTranslator × List String) from
      match args with
      | [.str seg, .int i, .str l] => (t.ifCmpGoto seg i l "D; JLE").map (t, ·)
      | _ => arityError "if-lte-goto"),
   ("if-gt-goto", fun (t : ASMTranslator) (args : List Arg) =>
      show Except String (ASMTranslator × List String) from
      match args with
      | [.str seg, .int i, .str l] => (t.ifCmpGoto seg i l "D; JGT").map (t, ·)
      | _ => arityError "if-gt-goto"),
   ("if-gte-goto", fun (t : ASMTranslator) (args : List Arg) =>
      show Except String (ASMTranslator × List String) from
      match args with
      | [.str seg, .int i, .str l] => (t.ifCmpGoto seg i l "D; JGE").map (t, ·)
      | _ => arityError "if-gte-goto"),
   ("function", fun (t : ASMTranslator) (args : List Arg) =>
      show Except String (ASMTranslator × List String) from
      match args with
      | [.str n, .int v] => Except.ok (t.functionAsm n v)
      | _ => arityError "function"),
   ("function-ext", fun (t : ASMTranslator) (args : List Arg) =>
      show Except String (ASMTranslator × List String) from
      match args with
      | [.str n, .int v, .int a] => Except.ok (t.functionExtAsm n v a)
      | _ => arityError "function-ext"),
   ("call", fun (t : ASMTranslator) (args : List Arg) =>
      show Except String (ASMTranslator × List String) from
      match args with
      | [.str n, .int a] => Except.ok (t.callAsm n a)
      | _ => arityError "call"),
   ("call-ext", fun (t : ASMTranslator) (args : List Arg) =>
      show Except String (ASMTranslator × List String) from
      match args with
      | [.str n] => Except.ok (t.callExtAsm n)
      | _ => arityError "call-ext"),
   ("return", fun (t : ASMTranslator) (args : List Arg) =>
      show Except String (ASMTranslator × List String) from
      match args with
      | [] => Except.ok (t, returnAsm)
      | _ => arityError "return"),
   ("inline-call", fun (t : ASMTranslator) (args : List Arg) =>
      show Except String (ASMTranslator × List String) from
      match args with
      | [.str f, .str g] => Except.ok (t.inlineSwap f g, [])
      | _ => arityError "inline-call"),
   ("inline-return", fun (t : ASMTranslator) (args : List Arg) =>
      show Except String (ASMTranslator × List String) from
      match args with
      | [.str f, .str g] => Except.ok (t.inlineSwap f g, [])
      | _ => arityError "inline-return"),
   ("save-stack", fun (t : ASMTranslator) (args : List Arg) =>
      show Except String (ASMTranslator × List String) from
      match args with
      | [] => Except.ok t.saveStackAsm
      | _ => arityError "save-stack"),
   ("pop-stack", fun (t : ASMTranslator) (args : List Arg) =>
      show Except String (ASMTranslator × List String) from
      match args with
      | [] => Except.ok (t, popStackAsm)
      | _ => arityError "pop-stack"),
   ("init-vm", fun (t : ASMTranslator) (args : List Arg) =>
      show Except String (ASMTranslator × List String) from
      match args with
      | [] => Except.ok t.initVmAsm
      | _ => arityError "init-vm")]

/-- `ASMTranslator.translate(command)`: `Command.visit` resolves the
handler named `'_' + command.replace('-', '_')` with `getattr` — an
unknown opcode raises `AttributeError` — and applies it to the argument
tuple. -/
def translateCmd (t : ASMTranslator) (c : Command) :
    Except String (ASMTranslator × List String) :=
  match opcodeHandlers.lookup c.command with
  | some handler => handler t c.args
  | none => .error ("AttributeError: no handler for opcode '" ++ c.command ++ "'")

end ASMTranslator

/-! ### Emission -/

/-- Write a list of instructions the way `Function.translate` and the
`init_vm` loop do: each instruction gets a trailing `// N` running
line-number comment unless it starts with `(`; returns the chunks, the new
global line count and the lines written. -/
def writeInstrs : List String → Nat → Nat → List String × Nat × Nat
  | [], glc, lc => ([], glc, lc)
  | i :: rest, glc, lc =>
    if i.data.head? = some '(' then
      let (chunks, glc', lc') := writeInstrs rest glc lc
      ((i ++ "\n") :: chunks, glc', lc')
    else
      let (chunks, glc', lc') := writeInstrs rest (glc + 1) (lc + 1)
      ((i ++ " // " ++ toString glc ++ "\n") :: chunks, glc', lc')

/-- The per-command loop of `Function.translate`: a `// <symbolic>` comment
line, then the lowered instructions. -/
def translateCmdsOut (t : ASMTranslator) (glc lc : Nat) :
    List Command → Except String (ASMTranslator × Nat × Nat × List String)
  | [] => .ok (t, glc, lc, [])
  | c :: rest => do
    let (t', instrs) ← t.translateCmd c
    let (chunk, glc', lc') := writeInstrs instrs glc lc
    let (t'', glc'', lc'', chunks) ← translateCmdsOut t' glc' lc' rest
    .ok (t'', glc'', lc'', ("// " ++ c.symbolicStr ++ "\n") :: (chunk ++ chunks))

/-- `Function.translate(translator, out, global_line_count)`: set the
emitter's file/function context, frame the body with `// Begin:` /
`// End:` comments, and emit each command. -/
def Function.translate (fn : Function) (t : ASMTranslator) (glc : Nat) :
    Except String (ASMTranslator × Nat × List String) := do
  let t := { t with filename := fn.filename, function_name := fn.function_name }
  let (t, glc', lc, chunks) ← translateCmdsOut t glc 0 fn.commands
  .ok (t, glc',
       ("// Begin: " ++ fn.function_name ++ "\n") :: chunks ++
       ["// End: " ++ fn.function_name ++ " / " ++ toString lc ++ " lines\n"])

/-- The emission loop of `translate` (lines 1292–1294), iterating the
reachable set in the order `order`. -/
def emitFunctions (tbl : List (String × Function)) (order : List String)
    (t : ASMTranslator) (glc : Nat) :
    Except String (ASMTranslator × Nat × List String) :=
  match order with
  | [] => .ok (t, glc, [])
  | name :: rest =>
    match tbl.lookup name with
    | none => .error ("KeyError: '" ++ name ++ "'")
    | some fn => do
      let (t, glc, chunks) ← fn.translate t glc
      let (t, glc, chunks') ← emitFunctions tbl rest t glc
      .ok (t, glc, chunks ++ chunks')

/-- `translate(program, init_vm, vm_files, out)`.  Python iterates the
*set* returned by `reachable_functions` three times (inline pass, peephole
pass, emission); a running Python process fixes those iteration orders but
the language does not, so they are parameters `o₁ o₂ o₃` here.  A run of
the source program corresponds to this model at some choice of `o₁ o₂ o₃`
that are permutations of the respective reachable sets.  The result is the
byte content written to the output file. -/
def translateModel (program : String) (initVm : Bool)
    (files : List (String × List String)) (o₁ o₂ o₃ : List String) :
    Except String String := do
  let p ← preassembleFiles files
  let _r₁ ← reachableFns p.functions "Sys.init"
  let tbl₁ ← inlinePass p.functions o₁
  let _r₂ ← reachableFns tbl₁ "Sys.init"
  let tbl₂ ← optimizePass tbl₁ o₂
  let t0 : ASMTranslator := .init
  let (initChunks, t1, glc1) :=
    if initVm then
      let (t', instrs) := t0.initVmAsm
      let (chunk, glc, _lc) := writeInstrs instrs 0 0
      (chunk, t', glc)
    else ([], t0, 0)
  let _r₃ ← reachableFns tbl₂ "Sys.init"
  let (_, _, chunks) ← emitFunctions tbl₂ o₃ t1 glc1
  .ok (String.join (("// Program: " ++ program ++ "\n") :: initChunks ++ chunks))

/-- `os.path.dirname`: everything before the last `/` (empty when there is
no `/`). -/
def pyDirname (s : String) : String :=
  if s.data.contains '/' then ⟨(s.data.reverse.dropWhile (fun c => c ≠ '/')).reverse.dropLast⟩
  else ""

/-- `os.path.join(dirname, name)` as used by the driver. -/
def pyJoin (d name : String) : String :=
  if d = "" then name else d ++ "/" ++ name

/-- The single-file branch of `__main__` (lines 1307–1316): one `.vm` file,
`init_vm = False`, output next to the input.  Returns the `.asm` path and
its byte content; an uncaught exception (`Except.error`) makes the Python
process exit non-zero with the output file left truncated. -/
def mainSingleFile (path : String) (lines : List String) (o₁ o₂ o₃ : List String) :
    Except String (String × String) := do
  let program := pyStem path
  let asmFile := pyJoin (pyDirname path) (program ++ ".asm")
  let out ← translateModel program false [(path, lines)] o₁ o₂ o₃
  .ok (asmFile, out)

/-- Position of `label l` in a command list. -/
def findLabel (prog : List Command) (l : String) : Option Nat :=
  prog.findIdx? (fun c => c.command = "label" && c.args == [Arg.str l])

/-- Run a command list from `pc`.  The observable outcome is the final
state together with `none` (execution fell off the end of the list) or
`some l` (execution left the list by a taken jump to a label `l` the list
does not define).  `none` overall means the interpreter got stuck or ran
out of fuel. -/
def run (fuel : Nat) (prog : List Command) (pc : Nat) (st : VMState) :
    Option (VMState × Option String) :=
  match fuel with
  | 0 => none
  | fuel + 1 =>
    match prog[pc]? with
    | none => some (st, none)
    | some c =>
      match stepCmd c st with
      | none => none
      | some (.next st') => run fuel prog (pc + 1) st'
      | some (.jump st' l) =>
        match findLabel prog l with
        | some j => run fuel prog (j + 1) st'
        | none => some (st', some l)

/-! ### Derived predicates and concrete programs used by the claims -/

/-- Is an argument an integer (as opposed to symbolic)? -/
def argIsInt : Arg → Bool
  | .int _ => true
  | .str _ => false

/-- The data-model invariant of the specification: the first command of a
`Function` is a `function` or `function-ext` declaration naming the same
function. -/
def firstCmdDeclares (f : Function) : Bool :=
  match f.commands.head? with
  | some c =>
    (c.command == "function" || c.command == "function-ext") &&
    c.args.head? == some (Arg.str f.function_name)
  | none => false

/-- The commands whose lowering calls `next_return_address_label` and hence
advances `call_index`: `call`, `call-ext` and `function-ext`. -/
def consumesRetLabel (c : Command) : Bool :=
  c.command == "call" || c.command == "call-ext" || c.command == "function-ext"

def countRetLabels (cmds : List Command) : Nat :=
  cmds.countP consumesRetLabel

/-- A two-function single-file program: `Sys.init` calls `Foo.f`. -/
def mainVmLines : List String :=
  ["function Sys.init 0", "call Foo.f 0", "return", "function Foo.f 0", "return"]

/-- A unit-test style file that supplies its own entry point instead of
defining `Sys.init`. -/
def testVmLines : List String :=
  ["function Test.main 0", "return"]

/-- Two one-call functions for exercising the emitter's `call_index`. -/
def c9fnA : Function :=
  ⟨"Main", "A", [⟨"function", [.str "A", .int 0]⟩, ⟨"call", [.str "X", .int 0]⟩], []⟩

def c9fnB : Function :=
  ⟨"Main", "B", [⟨"function", [.str "B", .int 0]⟩, ⟨"call", [.str "X", .int 0]⟩], []⟩

/-- The output chunks of lowering `c9fnA` then `c9fnB` with one emitter. -/
def c9chunks : List String :=
  match (do
    let (t, glc, o₁) ← c9fnA.translate ASMTranslator.init 0
    let (_, _, o₂) ← c9fnB.translate t glc
    Except.ok (o₁ ++ o₂) : Except String (List String)) with
  | .ok o => o
  | .error _ => []

/-- A function table with an entry (`Bar.unused`) that is not transitively
called from `Sys.init`. -/
def c3Tbl : List (String × Function) :=
  [("Sys.init", ⟨"Main", "Sys.init",
      [⟨"function", [.str "Sys.init", .int 0]⟩, ⟨"call", [.str "Foo.f", .int 0]⟩,
       ⟨"return", []⟩], ["Foo.f"]⟩),
   ("Foo.f", ⟨"Main", "Foo.f",
      [⟨"function", [.str "Foo.f", .int 0]⟩, ⟨"return", []⟩], []⟩),
   ("Bar.unused", ⟨"Main", "Bar.unused",
      [⟨"function", [.str "Bar.unused", .int 0]⟩, ⟨"return", []⟩], []⟩)]

/-- The preassembled table of `mainVmLines` (also the fixed point of the
inline and peephole passes on this program). -/
def mainTbl : List (String × Function) :=
  [("Sys.init", ⟨"Main", "Sys.init",
      [⟨"function", [.str "Sys.init", .int 0]⟩, ⟨"call", [.str "Foo.f", .int 0]⟩,
       ⟨"return", []⟩], ["Foo.f"]⟩),
   ("Foo.f", ⟨"Main", "Foo.f",
      [⟨"function", [.str "Foo.f", .int 0]⟩, ⟨"return", []⟩], []⟩)]

/-- The per-command action of `Optimizer.inline`'s loop body, factored out
of `inlineCmds` (and proved equal to it in `inlineCmds_cons_eq`): the
replacement block a command contributes to the rebuilt command list, and
the dependency it contributes. -/
def inlineStep (tbl : List (String × Function)) (cf cn : String) (c : Command) :
    Except String (List Command × List String) :=
  if c.command = "call" || c.command = "call-ext" then
    match c.args.head? with
    | some (.str g) =>
      match tbl.lookup g with
      | none => .error ("KeyError: '" ++ g ++ "'")
      | some gfn =>
        match tryInline gfn with
        | some body =>
          .ok (⟨"inline-call", [.str gfn.filename, .str gfn.function_name]⟩ ::
               (body ++ [⟨"inline-return", [.str cf, .str cn]⟩]), [])
        | none => .ok ([c], [g])
    | _ => .error "TypeError: non-string call target"
  else .ok ([c], [])

/-- A table holding one member accessor, `Point.getx`. -/
def c8Tbl : List (String × Function) :=
  [("Point.getx", ⟨"Point", "Point.getx",
      [⟨"function", [.str "Point.getx", .int 0]⟩,
       ⟨"push", [.str "argument", .int 0]⟩, ⟨"pop", [.str "pointer", .int 0]⟩,
       ⟨"push", [.str "this", .int 0]⟩, ⟨"return", []⟩], []⟩)]

/-- A caller whose only command calls the member accessor. -/
def c8Caller : Function :=
  ⟨"Main", "Main.main", [⟨"call", [.str "Point.getx", .int 1]⟩], []⟩

/-! ## Theorems -/

/-- **C1.** The peephole rules do *not* all preserve the reference
interpreter's observable state: because the pattern `lt` of the `lt; not →
gte` rule is an unanchored `re.match`, it also fires on the command `lte`,
and rewriting `lte; not` (which computes `gt`) into `gte` changes the final
stack.  Concretely, on the command list `[lte, not]` and a start state with
stack `[0, 0]`, the pre-rewrite program ends with stack `[0]` while the
post-rewrite program `[gte]` ends with stack `[-1]`. -/
theorem C1_lte_not_rewrite_changes_semantics :
    Optimizer.optimizeCommands [⟨"lte", []⟩, ⟨"not", []⟩] = [⟨"gte", []⟩] ∧
    run 10 [⟨"lte", []⟩, ⟨"not", []⟩] 0 ⟨[0, 0], [], 0⟩ = some (⟨[0], [], 0⟩, none) ∧
    run 10 [⟨"gte", []⟩] 0 ⟨[0, 0], [], 0⟩ = some (⟨[-1], [], 0⟩, none) ∧
    (⟨[0], [], 0⟩ : VMState) ≠ ⟨[-1], [], 0⟩ := by
  refine ⟨by decide, by decide, by decide, by decide⟩

set_option maxRecDepth 40000 in
/-- **C2.** `translate` is *not* deterministic across runs: the emission
loop iterates the Python `set` returned by `reachable_functions`, whose
iteration order over strings varies from process to process (hash
randomisation).  For the two-function program `mainVmLines`, two runs that
differ only in the emission enumeration of the same reachable set
`{Sys.init, Foo.f}` produce different output bytes (both orders shown are
permutations of the computed reachable set, and the pass orders are held
fixed). -/
theorem C2_output_depends_on_set_iteration_order :
    (mainSingleFile "Main.vm" mainVmLines ["Foo.f", "Sys.init"] ["Foo.f", "Sys.init"]
        ["Sys.init", "Foo.f"]).toOption ≠
      (mainSingleFile "Main.vm" mainVmLines ["Foo.f", "Sys.init"] ["Foo.f", "Sys.init"]
        ["Foo.f", "Sys.init"]).toOption ∧
    (do
      let p ← preassembleFiles [("Main.vm", mainVmLines)]
      reachableFns p.functions "Sys.init").toOption = some ["Foo.f", "Sys.init"] ∧
    (do
      let p ← preassembleFiles [("Main.vm", mainVmLines)]
      let tbl₁ ← inlinePass p.functions ["Foo.f", "Sys.init"]
      let tbl₂ ← optimizePass tbl₁ ["Foo.f", "Sys.init"]
      reachableFns tbl₂ "Sys.init").toOption = some ["Foo.f", "Sys.init"] ∧
    List.Perm ["Sys.init", "Foo.f"] ["Foo.f", "Sys.init"] ∧
    List.Perm ["Foo.f", "Sys.init"] ["Foo.f", "Sys.init"] := by
  refine ⟨by decide, by rfl, by rfl, by decide, by decide⟩

/-- **C4, counterexample.** The `pop X; push X' → tee X` rewrite does *not*
fire when the argument lists differ and *does* fire when they are
identical — the opposite of the claim (`match_code` requires `not
exclude(w)` and the exclude is `w[0].args != w[1].args`). -/
theorem C4_tee_counterexample :
    Optimizer.optimizeCommands
        [⟨"pop", [.str "local", .int 0]⟩, ⟨"push", [.str "local", .int 1]⟩] =
      [⟨"pop", [.str "local", .int 0]⟩, ⟨"push", [.str "local", .int 1]⟩] ∧
    Optimizer.optimizeCommands
        [⟨"pop", [.str "local", .int 0]⟩, ⟨"push", [.str "local", .int 0]⟩] =
      [⟨"tee", [.str "local", .int 0]⟩] := by
  refine ⟨by decide, by decide⟩

/-- **C4, amended.** On a `pop`/`push` window (with non-empty argument
lists, as every parsed `pop`/`push` has), the rule fires *exactly when the
two argument lists are equal*: the window is rewritten to `tee X` iff
`X = X'`, and left unchanged otherwise. -/
theorem C4_tee_fires_iff_equal_args (a b : List Arg) (ha : a ≠ []) (hb : b ≠ []) :
    Optimizer.rwPopPush [⟨"pop", a⟩, ⟨"push", b⟩] =
      (if a = b then [⟨"tee", a⟩] else [⟨"pop", a⟩, ⟨"push", b⟩]) ∧
    (matchCode [patPopAny, patPushAny] [⟨"pop", a⟩, ⟨"push", b⟩]
      (fun w => decide ((winCmd w 0).args ≠ (winCmd w 1).args)) = true ↔ a = b) := by
  obtain ⟨x, xs, rfl⟩ : ∃ x xs, a = x :: xs := by
    cases a with
    | nil => exact absurd rfl ha
    | cons x xs => exact ⟨x, xs, rfl⟩
  obtain ⟨y, ys, rfl⟩ : ∃ y ys, b = y :: ys := by
    cases b with
    | nil => exact absurd rfl hb
    | cons y ys => exact ⟨y, ys, rfl⟩
  have hm : matchCode [patPopAny, patPushAny] [⟨"pop", x :: xs⟩, ⟨"push", y :: ys⟩]
      (fun w => decide ((winCmd w 0).args ≠ (winCmd w 1).args))
      = decide (x :: xs = y :: ys) := by
    simp [matchCode, regexMatch, patPopAny, patPushAny, Command.symbolic, Arg.chars,
      List.isPrefixOf, winCmd, winArg, decide_not]
  constructor
  · rw [Optimizer.rwPopPush, rewriteRule]
    simp only [List.length_cons, List.length_nil]
    rw [windowReplace]
    simp only [List.take, List.drop, List.length_cons, List.length_nil]
    rw [wrAux]
    simp only [hm]
    by_cases h : x :: xs = y :: ys
    · simp [h, wrAux, winCmd]
    · simp [h, wrAux]
  · rw [hm]; simp

/-- Witness for C4: at `X = X' = local 0` the rewrite fires and produces
`tee local 0`. -/
theorem C4_tee_fires_iff_equal_args_witness :
    ([Arg.str "local", Arg.int 0] ≠ ([] : List Arg)) ∧
    (Optimizer.rwPopPush
        [⟨"pop", [.str "local", .int 0]⟩, ⟨"push", [.str "local", .int 0]⟩] =
      (if [Arg.str "local", Arg.int 0] = [Arg.str "local", Arg.int 0]
       then [⟨"tee", [.str "local", .int 0]⟩]
       else [⟨"pop", [.str "local", .int 0]⟩, ⟨"push", [.str "local", .int 0]⟩]) ∧
    (matchCode [patPopAny, patPushAny]
        [⟨"pop", [.str "local", .int 0]⟩, ⟨"push", [.str "local", .int 0]⟩]
        (fun w => decide ((winCmd w 0).args ≠ (winCmd w 1).args)) = true ↔
      [Arg.str "local", Arg.int 0] = [Arg.str "local", Arg.int 0])) :=
  ⟨by decide, C4_tee_fires_iff_equal_args _ _ (by decide) (by decide)⟩

set_option maxRecDepth 40000 in
/-- **C5.** Single-file mode crashes on a unit-test file that does not
define `Sys.init`: `reachable_functions('Sys.init')` dereferences
`functions['Sys.init']` unconditionally, so `translate` raises `KeyError`
and the process exits non-zero instead of succeeding.  (The file parses and
preassembles fine; the driver's stem computation is as documented.) -/
theorem C5_single_file_without_sys_init_raises_keyerror :
    mainSingleFile "Test.vm" testVmLines [] [] [] = .error "KeyError: 'Sys.init'" ∧
    pyStem "Test.vm" = "Test" ∧
    (preassembleFiles [("Test.vm", testVmLines)]).isOk = true := by
  refine ⟨by rfl, by rfl, by rfl⟩

/-- **C6, counterexample.** On the five-token line `op one 2 three 4`,
token position 2 (`one`) and token position 4 (`three`) are kept symbolic,
and the integer conversions are applied to positions 3 and 5 instead — the
parsed command violates the claimed positional typing. -/
theorem C6_positional_typing_counterexample :
    parseLine "op one 2 three 4" =
      .cmd ⟨"op", [.str "one", .int 2, .str "three", .int 4]⟩ ∧
    argIsInt ((Command.mk "op" [.str "one", .int 2, .str "three", .int 4]).args.getD 0
      (.str "")) = false ∧
    argIsInt ((Command.mk "op" [.str "one", .int 2, .str "three", .int 4]).args.getD 2
      (.str "")) = false := by
  refine ⟨by decide, by decide, by decide⟩

/-- **C6, amended.** The parser's positional typing, by token count: the
integer positions are token 3 (three-token lines), tokens 3 and 4
(four-token lines), and tokens 3 and 5 (five-token lines); every other
token, including token 2 in all cases and token 4 of five-token lines, is
kept symbolic. -/
theorem C6_positional_typing (c0 c1 c2 c3 c4 : String) (n2 n4 : Int)
    (h2 : pyInt c2 = some n2) (h4 : pyInt c4 = some n4) :
    parseComponents [c0] = .cmd ⟨c0, []⟩ ∧
    parseComponents [c0, c1] = .cmd ⟨c0, [.str c1]⟩ ∧
    parseComponents [c0, c1, c2] = .cmd ⟨c0, [.str c1, .int n2]⟩ ∧
    (∀ n3, pyInt c3 = some n3 →
      parseComponents [c0, c1, c2, c3] = .cmd ⟨c0, [.str c1, .int n2, .int n3]⟩) ∧
    parseComponents [c0, c1, c2, c3, c4] =
      .cmd ⟨c0, [.str c1, .int n2, .str c3, .int n4]⟩ := by
  refine ⟨rfl, rfl, by simp [parseComponents, h2], ?_, by simp [parseComponents, h2, h4]⟩
  intro n3 h3
  simp [parseComponents, h2, h3]

/-- Witness for C6 at the five-token line `push constant 2 three 4`. -/
theorem C6_positional_typing_witness :
    pyInt "2" = some 2 ∧ pyInt "4" = some 4 ∧
    parseComponents ["push", "constant", "2", "three", "4"] =
      .cmd ⟨"push", [.str "constant", .int 2, .str "three", .int 4]⟩ :=
  ⟨by decide, by decide,
   (C6_positional_typing "push" "constant" "2" "three" "4" 2 4 (by decide) (by decide)).2.2.2.2⟩

set_option maxRecDepth 40000 in
/-- **C7, counterexample.** Both halves of the claim fail.  A non-integer
token in an integer position does abort the run, but the `ValueError` from
`int('x')` names only the literal — neither the input file name `Foo.vm`
nor a line number appears in the message.  And a line of more than five
tokens produces no error at all: no branch of `__next__`'s `if`/`elif`
chain matches, so its `while True` loop just reads the next line, the
over-long line `a b c d e f` is silently dropped from the command stream,
and the whole translation succeeds with output identical to the program
without that line. -/
theorem C7_err_counterexample :
    mainSingleFile "Foo.vm" ["push constant x"] [] [] [] = .error (valueErrorMsg "x") ∧
    valueErrorMsg "x" = "ValueError: invalid literal for int() with base 10: 'x'" ∧
    ¬ List.IsInfix "Foo".data (valueErrorMsg "x").data ∧
    parseLine "a b c d e f" = .skip ∧
    parseFileLines ("a b c d e f" :: mainVmLines) = parseFileLines mainVmLines ∧
    mainSingleFile "Main.vm" ("a b c d e f" :: mainVmLines)
        ["Foo.f", "Sys.init"] ["Foo.f", "Sys.init"] ["Sys.init", "Foo.f"] =
      mainSingleFile "Main.vm" mainVmLines
        ["Foo.f", "Sys.init"] ["Foo.f", "Sys.init"] ["Sys.init", "Foo.f"] ∧
    (mainSingleFile "Main.vm" ("a b c d e f" :: mainVmLines)
        ["Foo.f", "Sys.init"] ["Foo.f", "Sys.init"] ["Sys.init", "Foo.f"]).isOk = true := by
  refine ⟨by rfl, by rfl, by decide, by rfl, by rfl, by rfl, by rfl⟩

/-- **C7, amended.** A non-integer token in an integer position makes the
run fail fast — the `ValueError` aborts the parse loop at the line that
raises it — but the message names only the offending literal, never the
file name or line number.  A token count above five, by contrast, is not
an error at all: no branch of `__next__`'s `if`/`elif` chain matches, so
the `while True` loop silently skips the line and it contributes nothing
to the command stream. -/
theorem C7_fail_fast :
    (∀ toks : List String, 5 < toks.length → parseComponents toks = .skip) ∧
    (∀ c0 c1 c2 : String, pyInt c2 = none →
        parseComponents [c0, c1, c2] = .err (valueErrorMsg c2)) ∧
    (∀ c0 c1 c2 c3 : String, ∀ n2 : Int, pyInt c2 = some n2 → pyInt c3 = none →
        parseComponents [c0, c1, c2, c3] = .err (valueErrorMsg c3)) ∧
    (∀ c0 c1 c2 c3 c4 : String, ∀ n2 : Int, pyInt c2 = some n2 → pyInt c4 = none →
        parseComponents [c0, c1, c2, c3, c4] = .err (valueErrorMsg c4)) ∧
    (∀ (line : String) (rest : List String), parseLine line = .skip →
        parseFileLines (line :: rest) = parseFileLines rest) ∧
    (∀ (pre : List String) (line : String) (rest : List String)
        (cs : List Command) (m : String), parseFileLines pre = .ok cs →
        parseLine line = .err m → parseFileLines (pre ++ line :: rest) = .error m) := by
  refine ⟨?_, ?_, ?_, ?_, ?_, ?_⟩
  · intro toks h
    rcases toks with _ | ⟨a, _ | ⟨b, _ | ⟨c, _ | ⟨d, _ | ⟨e, _ | ⟨f, rest⟩⟩⟩⟩⟩⟩
    all_goals simp_all
    rfl
  · intro c0 c1 c2 h; simp [parseComponents, h]
  · intro c0 c1 c2 c3 n2 h2 h3; simp [parseComponents, h2, h3]
  · intro c0 c1 c2 c3 c4 n2 h2 h4; simp [parseComponents, h2, h4]
  · intro line rest hline
    rw [parseFileLines, hline]
  · intro pre line rest cs m hpre hline
    induction pre generalizing cs with
    | nil => simp [parseFileLines, hline]
    | cons l pre ih =>
      rw [List.cons_append, parseFileLines]
      rw [parseFileLines] at hpre
      cases hl : parseLine l with
      | skip => rw [hl] at hpre; exact ih cs hpre
      | cmd c =>
        rw [hl] at hpre
        cases hp : parseFileLines pre with
        | ok cs' => simp [ih cs' hp, Except.map]
        | error e => rw [hp] at hpre; simp [Except.map] at hpre
      | err e => rw [hl] at hpre; simp at hpre

/-- Witness for C7: the six-token line `a b c d e f` is silently skipped
(both by `parseComponents` and in the stream), and `push constant x`
raises the `ValueError` for `x`, which propagates out of the file. -/
theorem C7_fail_fast_witness :
    (5 < (["a", "b", "c", "d", "e", "f"] : List String).length) ∧
    parseComponents ["a", "b", "c", "d", "e", "f"] = .skip ∧
    parseLine "a b c d e f" = .skip ∧
    parseFileLines ["a b c d e f", "return"] = parseFileLines ["return"] ∧
    pyInt "x" = none ∧
    parseComponents ["push", "constant", "x"] = .err (valueErrorMsg "x") ∧
    parseFileLines ["return", "push constant x", "return"] =
      .error (valueErrorMsg "x") :=
  ⟨by decide, C7_fail_fast.1 _ (by decide), by decide,
   C7_fail_fast.2.2.2.2.1 "a b c d e f" ["return"] (by decide),
   by decide, C7_fail_fast.2.1 "push" "constant" "x" (by decide),
   C7_fail_fast.2.2.2.2.2 ["return"] "push constant x" ["return"]
     [⟨"return", []⟩] (valueErrorMsg "x") (by rfl) (by decide)⟩

/-- Soundness of the worklist: everything a successful
`reachable_functions` run collects is transitively reachable, provided the
incoming `seen` and `frontier` are. -/
theorem reachAux_sound (tbl : List (String × Function)) (root : String) :
    ∀ (fuel : Nat) (seen frontier out : List String),
      reachAux tbl fuel seen frontier = .ok out →
      (∀ x ∈ seen, Reaches tbl root x) → (∀ x ∈ frontier, Reaches tbl root x) →
      ∀ x ∈ out, Reaches tbl root x := by
  intro fuel
  induction fuel with
  | zero => intro seen frontier out h; simp [reachAux] at h
  | succ fuel ih =>
    intro seen frontier out h hseen hfront
    cases frontier with
    | nil =>
      rw [reachAux] at h
      cases h
      exact hseen
    | cons n fr =>
      rw [reachAux] at h
      by_cases hn : n ∈ seen
      · rw [if_pos hn] at h
        exact ih seen fr out h hseen (fun x hx => hfront x (List.mem_cons_of_mem _ hx))
      · rw [if_neg hn] at h
        cases hl : tbl.lookup n with
        | none => rw [hl] at h; cases h
        | some fn =>
          rw [hl] at h
          have hrn : Reaches tbl root n := hfront n (List.mem_cons_self _ _)
          refine ih _ _ out h ?_ ?_
          · intro x hx
            rcases List.mem_cons.mp hx with rfl | hx
            · exact hrn
            · exact hseen x hx
          · intro x hx
            rcases List.mem_append.mp hx with hx | hx
            · exact Reaches.step hrn hl (List.mem_reverse.mp hx)
            · exact hfront x (List.mem_cons_of_mem _ hx)

/-- Completeness invariants of the worklist: a successful run's result
contains `seen` and `frontier` and is closed under the dependency edges of
its members (outside the incoming `seen`). -/
theorem reachAux_complete (tbl : List (String × Function)) :
    ∀ (fuel : Nat) (seen frontier out : List String),
      reachAux tbl fuel seen frontier = .ok out →
      (∀ x ∈ seen, x ∈ out) ∧ (∀ x ∈ frontier, x ∈ out) ∧
      (∀ x ∈ out, x ∉ seen →
        ∀ fn, tbl.lookup x = some fn → ∀ d ∈ fn.dependencies, d ∈ out) := by
  intro fuel
  induction fuel with
  | zero => intro seen frontier out h; simp [reachAux] at h
  | succ fuel ih =>
    intro seen frontier out h
    cases frontier with
    | nil =>
      rw [reachAux] at h
      cases h
      exact ⟨fun x hx => hx, fun x hx => absurd hx (List.not_mem_nil x),
             fun x hx hnx => absurd hx hnx⟩
    | cons n fr =>
      rw [reachAux] at h
      by_cases hn : n ∈ seen
      · rw [if_pos hn] at h
        obtain ⟨h1, h2, h3⟩ := ih seen fr out h
        exact ⟨h1, fun x hx => by
          rcases List.mem_cons.mp hx with rfl | hx
          · exact h1 x hn
          · exact h2 x hx, h3⟩
      · rw [if_neg hn] at h
        cases hl : tbl.lookup n with
        | none => rw [hl] at h; cases h
        | some fn =>
          rw [hl] at h
          obtain ⟨h1, h2, h3⟩ := ih _ _ out h
          have hnout : n ∈ out := h1 n (List.mem_cons_self _ _)
          refine ⟨fun x hx => h1 x (List.mem_cons_of_mem _ hx), ?_, ?_⟩
          · intro x hx
            rcases List.mem_cons.mp hx with rfl | hx
            · exact hnout
            · exact h2 x (List.mem_append_right _ hx)
          · intro x hx hxseen fn' hl' d hd
            by_cases hxn : x = n
            · subst hxn
              rw [hl] at hl'
              cases hl'
              exact h2 d (List.mem_append_left _ (List.mem_reverse.mpr hd))
            · exact h3 x hx (by simp [hxn, hxseen]) fn' hl' d hd

/-- **C3.** The emission loop of `translate` iterates an enumeration
`emitOrder` of the set computed by `reachable_functions('Sys.init')` on the
post-optimizer table (`emitFunctions tbl o₃` in `translateModel`), and a
function's body and label are emitted exactly when its name is in that
enumeration.  This theorem shows the enumeration contains a name iff the
name is transitively reachable from the root along the table's dependency
edges: reachable functions are all emitted, unreachable ones are dropped
entirely. -/
theorem C3_emitted_iff_reachable (tbl : List (String × Function)) (root : String)
    (ns emitOrder : List String) (hr : reachableFns tbl root = .ok ns)
    (ho : emitOrder.Perm ns) (f : String) :
    f ∈ emitOrder ↔ Reaches tbl root f := by
  rw [ho.mem_iff]
  constructor
  · intro h
    refine reachAux_sound tbl root _ _ _ _ hr ?_ ?_ f h
    · intro x hx; cases hx
    · intro x hx
      rcases List.mem_cons.mp hx with rfl | hx
      · exact Reaches.refl
      · cases hx
  · intro h
    obtain ⟨h1, h2, h3⟩ := reachAux_complete tbl _ _ _ _ hr
    induction h with
    | refl => exact h2 root (List.mem_cons_self _ _)
    | step ha hl hd ih => exact h3 _ ih (List.not_mem_nil _) _ hl _ hd

/-- Witness for C3 on a concrete three-function table: the reachable set
is `{Foo.f, Sys.init}` and the theorem applies to the emission order
`[Sys.init, Foo.f]`, giving in particular that `Bar.unused` is emitted iff
it is reachable (it is neither). -/
theorem C3_witness :
    reachableFns c3Tbl "Sys.init" = .ok ["Foo.f", "Sys.init"] ∧
    List.Perm ["Sys.init", "Foo.f"] ["Foo.f", "Sys.init"] ∧
    ("Bar.unused" ∈ (["Sys.init", "Foo.f"] : List String) ↔
      Reaches c3Tbl "Sys.init" "Bar.unused") :=
  ⟨by rfl, by decide,
   C3_emitted_iff_reachable c3Tbl "Sys.init" ["Foo.f", "Sys.init"]
     ["Sys.init", "Foo.f"] (by rfl) (by decide) "Bar.unused"⟩

/-- A successful dict lookup means the pair is in the table. -/
theorem lookup_mem {β : Type} (tbl : List (String × β)) (k : String) (v : β)
    (h : List.lookup k tbl = some v) : (k, v) ∈ tbl := by
  induction tbl with
  | nil => simp [List.lookup] at h
  | cons e t ih =>
    obtain ⟨k', v'⟩ := e
    rw [List.lookup] at h
    by_cases hk : k == k'
    · rw [hk] at h
      simp only [Option.some.injEq] at h
      subst h
      have : k = k' := by simpa using hk
      subst this
      exact List.mem_cons_self _ _
    · rw [Bool.not_eq_true] at hk
      rw [hk] at h
      exact List.mem_cons_of_mem _ (ih h)

/-- Every entry of the table after an insert-or-replace is the new pair or
an old entry. -/
theorem tblInsert_mem (tbl : List (String × Function)) (k : String) (v : Function)
    (e : String × Function) (h : e ∈ tblInsert tbl k v) : e = (k, v) ∨ e ∈ tbl := by
  induction tbl with
  | nil => simp [tblInsert] at h; simp [h]
  | cons e' t ih =>
    obtain ⟨k', v'⟩ := e'
    rw [tblInsert] at h
    by_cases hk : k' = k
    · rw [if_pos hk] at h
      rcases List.mem_cons.mp h with rfl | h
      · exact Or.inl rfl
      · exact Or.inr (List.mem_cons_of_mem _ h)
    · rw [if_neg hk] at h
      rcases List.mem_cons.mp h with rfl | h
      · exact Or.inr (List.mem_cons_self _ _)
      · rcases ih h with h | h
        · exact Or.inl h
        · exact Or.inr (List.mem_cons_of_mem _ h)

/-- An invariant preserved by each successful step of an `Except`-valued
fold is preserved by the whole fold. -/
theorem foldlM_except_inv {α β : Type} (P : β → Prop) (step : β → α → Except String β)
    (hstep : ∀ b a b', P b → step b a = .ok b' → P b') :
    ∀ (l : List α) (b b' : β), P b → l.foldlM step b = .ok b' → P b' := by
  intro l
  induction l with
  | nil =>
    intro b b' hb h
    simp only [List.foldlM_nil] at h
    cases h
    exact hb
  | cons a l ih =>
    intro b b' hb h
    rw [List.foldlM_cons] at h
    cases hs : step b a with
    | error e => rw [hs] at h; exact absurd h (by simp [Bind.bind, Except.bind])
    | ok b₂ =>
      rw [hs] at h
      exact ih b₂ b' (hstep b a b₂ hb hs) h
/-- `window_replace` worker: if the matcher rejects every window that
starts with `c`, a buffer headed by `c` emits `c` first. -/
theorem wrAux_head (n : Nat) (m : List Command → Bool)
    (sub : List Command → List Command) (fuel : Nat) (c : Command)
    (bufTail rest : List Command)
    (hm : ∀ w : List Command, w.head? = some c → m w = false) :
    ∃ rest', wrAux n m sub (fuel + 1) (c :: bufTail) rest = c :: rest' := by
  rw [wrAux.eq_def]
  dsimp only
  by_cases hl : (c :: bufTail).length < n
  · rw [if_pos hl]
    exact ⟨_, rfl⟩
  · rw [if_neg hl, hm (c :: bufTail) rfl]
    simp only [Bool.false_eq_true, if_false]
    cases rest with
    | nil => exact ⟨_, rfl⟩
    | cons r rs => exact ⟨_, rfl⟩

/-- If the matcher rejects every window starting with `c`, then
`window_replace` keeps `c` as the head of the output. -/
theorem windowReplace_head (n : Nat) (hn : 1 ≤ n) (m : List Command → Bool)
    (sub : List Command → List Command) (c : Command) (rest : List Command)
    (hm : ∀ w : List Command, w.head? = some c → m w = false) :
    ∃ rest', windowReplace n m sub (c :: rest) = c :: rest' := by
  rw [windowReplace]
  have htake : (c :: rest).take n = c :: rest.take (n - 1) := by
    cases n with
    | zero => omega
    | succ k => simp [List.take]
  rw [htake]
  have hlen : (c :: rest).length + 1 = rest.length + 1 + 1 := by simp
  rw [hlen]
  exact wrAux_head n m sub (rest.length + 1) c _ _ hm

/-- The symbolic rendering of a `function`/`function-ext` command starts
with the letter `f`. -/
theorem symbolic_head_function (c : Command)
    (h : c.command = "function" ∨ c.command = "function-ext") :
    ∃ tail, c.symbolic = 'f' :: tail := by
  rcases h with h | h <;> (rw [Command.symbolic, h]; exact ⟨_, rfl⟩)

/-- A pattern whose literal alternatives all start with a letter other
than `f` cannot match a command whose symbolic form starts with `f`. -/
theorem regexMatch_false_head (alts : List (List Char)) (c : Command) (tail : List Char)
    (hsym : c.symbolic = 'f' :: tail)
    (halts : ∀ p ∈ alts, ∃ a as, p = a :: as ∧ a ≠ 'f') :
    regexMatch alts c = false := by
  rw [regexMatch, List.any_eq_false]
  intro p hp
  obtain ⟨a, as, rfl, ha⟩ := halts p hp
  rw [hsym]
  simp [List.isPrefixOf, ha]

/-- `match_code` fails on any window whose first command already fails
the first pattern. -/
theorem matchCode_false_head (p₁ : List (List Char)) (ps : List (List (List Char)))
    (excl : List Command → Bool) (c : Command) (w : List Command)
    (hw : w.head? = some c) (hfalse : regexMatch p₁ c = false) :
    matchCode (p₁ :: ps) w excl = false := by
  cases w with
  | nil => cases hw
  | cons c' w' =>
    have : c' = c := by simpa using hw
    subst this
    simp [matchCode, hfalse]

/-- A `rewrite` whose first pattern rejects `c` keeps `c` as the head. -/
theorem rewriteRule_head (pat : List (List Char)) (ps : List (List (List Char)))
    (excl : List Command → Bool) (sub : List Command → List Command)
    (c : Command) (r : List Command) (hf : regexMatch pat c = false) :
    ∃ r', rewriteRule (pat :: ps) excl sub (c :: r) = c :: r' := by
  rw [rewriteRule]
  exact windowReplace_head _ (by simp) _ _ c r
    (fun w hw => matchCode_false_head _ _ _ _ _ hw hf)

/-- None of the eleven peephole rewrites can fire on a window that starts
with a `function`/`function-ext` declaration (every first pattern requires
a first letter in `{p, l, g, i}`), so the whole peephole pass keeps the
declaration as the head of the command list. -/
theorem optimizeCommands_head (c : Command) (rest : List Command)
    (h : c.command = "function" ∨ c.command = "function-ext") :
    ∃ rest', Optimizer.optimizeCommands (c :: rest) = c :: rest' := by
  obtain ⟨tail, hsym⟩ := symbolic_head_function c h
  have hf1 : regexMatch patPushConstantAny c = false :=
    regexMatch_false_head _ c tail hsym
      (by intro p hp; simp [patPushConstantAny] at hp; subst hp; exact ⟨_, _, rfl, by decide⟩)
  have hf2 : regexMatch patPushConstant0 c = false :=
    regexMatch_false_head _ c tail hsym
      (by intro p hp; simp [patPushConstant0] at hp; subst hp; exact ⟨_, _, rfl, by decide⟩)
  have hf3 : regexMatch patLt c = false :=
    regexMatch_false_head _ c tail hsym
      (by intro p hp; simp [patLt] at hp; subst hp; exact ⟨_, _, rfl, by decide⟩)
  have hf4 : regexMatch patGt c = false :=
    regexMatch_false_head _ c tail hsym
      (by intro p hp; simp [patGt] at hp; subst hp; exact ⟨_, _, rfl, by decide⟩)
  have hf5 : regexMatch patPushAny c = false :=
    regexMatch_false_head _ c tail hsym
      (by intro p hp; simp [patPushAny] at hp; subst hp; exact ⟨_, _, rfl, by decide⟩)
  have hf6 : regexMatch patPopAny c = false :=
    regexMatch_false_head _ c tail hsym
      (by intro p hp; simp [patPopAny] at hp; subst hp; exact ⟨_, _, rfl, by decide⟩)
  have hf7 : regexMatch patIfGoto c = false :=
    regexMatch_false_head _ c tail hsym
      (by intro p hp; simp [patIfGoto] at hp; subst hp; exact ⟨_, _, rfl, by decide⟩)
  rw [Optimizer.optimizeCommands]
  obtain ⟨r1, e1⟩ := rewriteRule_head patPushConstantAny _ _ _ c rest hf1
  rw [Optimizer.rwConstNot, e1]
  obtain ⟨r2, e2⟩ := rewriteRule_head patPushConstantAny _ _ _ c r1 hf1
  rw [Optimizer.rwConstNeg, e2]
  obtain ⟨r3, e3⟩ := rewriteRule_head patPushConstant0 _ _ _ c r2 hf2
  rw [Optimizer.rwZeroAdd, e3]
  obtain ⟨r4, e4⟩ := rewriteRule_head patPushConstant0 _ _ _ c r3 hf2
  rw [Optimizer.rwZeroNot, e4]
  obtain ⟨r5, e5⟩ := rewriteRule_head patLt _ _ _ c r4 hf3
  rw [Optimizer.rwLtNot, e5]
  obtain ⟨r6, e6⟩ := rewriteRule_head patGt _ _ _ c r5 hf4
  rw [Optimizer.rwGtNot, e6]
  obtain ⟨r7, e7⟩ := rewriteRule_head patPushAny _ _ _ c r6 hf5
  rw [Optimizer.rwCmpIfGoto, e7]
  obtain ⟨r8, e8⟩ := rewriteRule_head patPushAny _ _ _ c r7 hf5
  rw [Optimizer.rwPushPop, e8]
  obtain ⟨r9, e9⟩ := rewriteRule_head patPushAny _ _ _ c r8 hf5
  rw [Optimizer.rwPushInlinePop, e9]
  obtain ⟨r10, e10⟩ := rewriteRule_head patPopAny _ _ _ c r9 hf6
  rw [Optimizer.rwPopPush, e10]
  obtain ⟨r11, e11⟩ := rewriteRule_head patIfGoto _ _ _ c r10 hf7
  rw [Optimizer.rwIfGotoGotoLabel, e11]
  exact ⟨r11, rfl⟩
/-- `Function.append` appends the command and never touches the name or
filename. -/
theorem append_fields (f : Function) (c : Command) (f' : Function)
    (h : f.append c = .ok f') :
    f'.commands = f.commands ++ [c] ∧ f'.function_name = f.function_name ∧
    f'.filename = f.filename := by
  rw [Function.append] at h
  split at h
  · split at h
    · cases h; exact ⟨rfl, rfl, rfl⟩
    · cases h
    · cases h
  · cases h; exact ⟨rfl, rfl, rfl⟩

/-- `Preassembler.add` preserves the declaration-head invariant of every
table entry: a `function`/`function-ext` command starts a fresh entry whose
single command is that declaration, and any other command is appended
behind the current entry's declaration. -/
theorem add_preserves (p : Preassembler) (filename : String) (c : Command)
    (p' : Preassembler)
    (hInv : ∀ e ∈ p.functions, firstCmdDeclares e.2 = true)
    (h : p.add filename c = .ok p') :
    ∀ e ∈ p'.functions, firstCmdDeclares e.2 = true := by
  rw [Preassembler.add] at h
  split at h
  case isTrue hc =>
    split at h
    case h_1 name heq =>
      dsimp only at h
      cases hap : Function.append ⟨filename, name, [], []⟩ c with
      | error e => rw [hap] at h; exact absurd h (by simp [Bind.bind, Except.bind])
      | ok fn' =>
        rw [hap] at h
        cases h
        intro e he
        rcases tblInsert_mem _ _ _ _ he with rfl | he
        · obtain ⟨hcmds, hname, _⟩ := append_fields _ _ _ hap
          simp only [firstCmdDeclares, hcmds, hname]
          simp only [List.nil_append, List.head?_cons]
          simp only [Bool.or_eq_true, decide_eq_true_eq] at hc
          rcases hc with hc | hc <;> simp [hc, heq]
        · exact hInv e he
    case h_2 => cases h
  case isFalse hc =>
    split at h
    case h_1 => cases h
    case h_2 cur hcur =>
      split at h
      case h_1 => cases h
      case h_2 fn hfn =>
        cases hap : fn.append c with
        | error e => rw [hap] at h; exact absurd h (by simp [Bind.bind, Except.bind])
        | ok fn' =>
          rw [hap] at h
          cases h
          intro e he
          rcases tblInsert_mem _ _ _ _ he with rfl | he
          · have hmem : (cur, fn) ∈ p.functions := lookup_mem _ _ _ hfn
            have hffn := hInv _ hmem
            obtain ⟨hcmds, hname, _⟩ := append_fields _ _ _ hap
            rw [firstCmdDeclares] at hffn ⊢
            rw [hcmds, hname]
            cases hcs : fn.commands with
            | nil => rw [hcs] at hffn; simp at hffn
            | cons d rest =>
              rw [hcs] at hffn
              simpa using hffn
          · exact hInv e he

/-- The inlining loop copies through a non-`call` head unchanged. -/
theorem inlineCmds_head (tbl : List (String × Function)) (cf cn : String)
    (c : Command) (rest cs : List Command) (ds : List String)
    (h1 : c.command ≠ "call") (h2 : c.command ≠ "call-ext")
    (h : inlineCmds tbl cf cn (c :: rest) = .ok (cs, ds)) :
    ∃ cs', cs = c :: cs' := by
  rw [inlineCmds] at h
  rw [if_neg (by simp [h1, h2])] at h
  cases hr : inlineCmds tbl cf cn rest with
  | error e => rw [hr] at h; exact absurd h (by simp [Bind.bind, Except.bind])
  | ok pr =>
    obtain ⟨a, b⟩ := pr
    rw [hr] at h
    have : Except.ok (ε := String) (c :: a, b) = .ok (cs, ds) := h
    cases this
    exact ⟨a, rfl⟩

/-- `Optimizer.inline` preserves the declaration-head invariant: the
declaration heading the function is not a call site, so it is copied
through, and the function's name is unchanged. -/
theorem inline_preserves_first (tbl : List (String × Function)) (f f' : Function)
    (hf : firstCmdDeclares f = true) (h : Optimizer.inline tbl f = .ok f') :
    firstCmdDeclares f' = true := by
  rw [Optimizer.inline] at h
  cases hic : inlineCmds tbl f.filename f.function_name f.commands with
  | error e => rw [hic] at h; exact absurd h (by simp [Bind.bind, Except.bind])
  | ok pr =>
    obtain ⟨cs, ds⟩ := pr
    rw [hic] at h
    cases h
    rw [firstCmdDeclares] at hf
    cases hcs : f.commands with
    | nil => rw [hcs] at hf; simp at hf
    | cons c₀ rest =>
      rw [hcs] at hf
      simp only [List.head?_cons] at hf
      have hc0 : (c₀.command == "function" || c₀.command == "function-ext") = true ∧
          (c₀.args.head? == some (Arg.str f.function_name)) = true := by
        simpa using hf
      have hne1 : c₀.command ≠ "call" := by
        rcases (by simpa using hc0.1 : c₀.command = "function" ∨ c₀.command = "function-ext") with
          h | h <;> simp [h]
      have hne2 : c₀.command ≠ "call-ext" := by
        rcases (by simpa using hc0.1 : c₀.command = "function" ∨ c₀.command = "function-ext") with
          h | h <;> simp [h]
      rw [hcs] at hic
      obtain ⟨cs', rfl⟩ := inlineCmds_head _ _ _ _ _ _ _ hne1 hne2 hic
      rw [firstCmdDeclares]
      simpa using hf

/-- `Optimizer.optimize` preserves the declaration-head invariant. -/
theorem optimize_preserves_first (f : Function)
    (hf : firstCmdDeclares f = true) :
    firstCmdDeclares (Optimizer.optimize f) = true := by
  rw [firstCmdDeclares] at hf
  cases hcs : f.commands with
  | nil => rw [hcs] at hf; simp at hf
  | cons c₀ rest =>
    rw [hcs] at hf
    simp only [List.head?_cons] at hf
    have hc0 : c₀.command = "function" ∨ c₀.command = "function-ext" := by
      have := (by simpa using hf :
        (c₀.command = "function" ∨ c₀.command = "function-ext") ∧
          c₀.args.head? = some (Arg.str f.function_name))
      exact this.1
    obtain ⟨rest', hopt⟩ := optimizeCommands_head c₀ rest hc0
    rw [Optimizer.optimize, firstCmdDeclares]
    simp only [hcs, hopt, List.head?_cons]
    simpa using hf
theorem preassembleFiles_inv (files : List (String × List String)) (p : Preassembler)
    (h : preassembleFiles files = .ok p) :
    ∀ e ∈ p.functions, firstCmdDeclares e.2 = true := by
  rw [preassembleFiles] at h
  refine foldlM_except_inv
    (fun q : Preassembler => ∀ e ∈ q.functions, firstCmdDeclares e.2 = true)
    _ ?_ files ⟨[], none⟩ p (by intro e he; cases he) h
  intro b a b' hb hs
  dsimp only at hs
  cases hpf : parseFileLines a.2 with
  | error e => rw [hpf] at hs; exact absurd hs (by simp [Bind.bind, Except.bind])
  | ok items =>
    rw [hpf] at hs
    refine foldlM_except_inv
      (fun q : Preassembler => ∀ e ∈ q.functions, firstCmdDeclares e.2 = true)
      _ ?_ items b b' hb hs
    intro q c q' hq hqs
    exact add_preserves q (pyStem a.1) c q' hq hqs

theorem inlinePass_inv (tbl : List (String × Function)) (order : List String)
    (tbl' : List (String × Function))
    (hInv : ∀ e ∈ tbl, firstCmdDeclares e.2 = true)
    (h : inlinePass tbl order = .ok tbl') :
    ∀ e ∈ tbl', firstCmdDeclares e.2 = true := by
  rw [inlinePass] at h
  refine foldlM_except_inv
    (fun t : List (String × Function) => ∀ e ∈ t, firstCmdDeclares e.2 = true)
    _ ?_ order tbl tbl' hInv h
  intro t name t' ht hstep
  cases hl : t.lookup name with
  | none => rw [hl] at hstep; cases hstep
  | some fn =>
    rw [hl] at hstep
    dsimp only at hstep
    cases hin : Optimizer.inline t fn with
    | error e => rw [hin] at hstep; exact absurd hstep (by simp [Bind.bind, Except.bind])
    | ok fn' =>
      rw [hin] at hstep
      cases hstep
      intro e he
      rcases tblInsert_mem _ _ _ _ he with rfl | he
      · exact inline_preserves_first t fn fn' (ht _ (lookup_mem _ _ _ hl)) hin
      · exact ht e he

theorem optimizePass_inv (tbl : List (String × Function)) (order : List String)
    (tbl' : List (String × Function))
    (hInv : ∀ e ∈ tbl, firstCmdDeclares e.2 = true)
    (h : optimizePass tbl order = .ok tbl') :
    ∀ e ∈ tbl', firstCmdDeclares e.2 = true := by
  rw [optimizePass] at h
  refine foldlM_except_inv
    (fun t : List (String × Function) => ∀ e ∈ t, firstCmdDeclares e.2 = true)
    _ ?_ order tbl tbl' hInv h
  intro t name t' ht hstep
  cases hl : t.lookup name with
  | none => rw [hl] at hstep; cases hstep
  | some fn =>
    rw [hl] at hstep
    dsimp only at hstep
    cases hstep
    intro e he
    rcases tblInsert_mem _ _ _ _ he with rfl | he
    · exact optimize_preserves_first fn (ht _ (lookup_mem _ _ _ hl))
    · exact ht e he

/-- **C10.** At every stage of the pipeline — after preassembly, after the
inlining pass, and after the peephole pass — the first command of every
`Function` in the table is a `function` or `function-ext` declaration whose
name argument equals that function's name. -/
theorem C10_first_command_declares (files : List (String × List String))
    (o₁ o₂ : List String) (p : Preassembler) (tbl₁ tbl₂ : List (String × Function))
    (hp : preassembleFiles files = .ok p)
    (h₁ : inlinePass p.functions o₁ = .ok tbl₁)
    (h₂ : optimizePass tbl₁ o₂ = .ok tbl₂) :
    (∀ e ∈ p.functions, firstCmdDeclares e.2 = true) ∧
    (∀ e ∈ tbl₁, firstCmdDeclares e.2 = true) ∧
    (∀ e ∈ tbl₂, firstCmdDeclares e.2 = true) := by
  have hpre := preassembleFiles_inv files p hp
  have hi := inlinePass_inv p.functions o₁ tbl₁ hpre h₁
  exact ⟨hpre, hi, optimizePass_inv tbl₁ o₂ tbl₂ hi h₂⟩

set_option maxRecDepth 40000 in
/-- Witness for C10 on the concrete two-function program. -/
theorem C10_first_command_declares_witness :
    preassembleFiles [("Main.vm", mainVmLines)] = .ok ⟨mainTbl, some "Foo.f"⟩ ∧
    inlinePass mainTbl ["Foo.f", "Sys.init"] = .ok mainTbl ∧
    optimizePass mainTbl ["Foo.f", "Sys.init"] = .ok mainTbl ∧
    ((∀ e ∈ (⟨mainTbl, some "Foo.f"⟩ : Preassembler).functions,
        firstCmdDeclares e.2 = true) ∧
     (∀ e ∈ mainTbl, firstCmdDeclares e.2 = true) ∧
     (∀ e ∈ mainTbl, firstCmdDeclares e.2 = true)) :=
  ⟨by rfl, by rfl, by rfl,
   C10_first_command_declares [("Main.vm", mainVmLines)] ["Foo.f", "Sys.init"]
     ["Foo.f", "Sys.init"] ⟨mainTbl, some "Foo.f"⟩ mainTbl mainTbl
     (by rfl) (by rfl) (by rfl)⟩

/-- One step of the inlining loop equals `inlineStep` followed by the rest
of the loop. -/
theorem inlineCmds_cons_eq (tbl : List (String × Function)) (cf cn : String)
    (c : Command) (rest : List Command) :
    inlineCmds tbl cf cn (c :: rest) =
      (inlineStep tbl cf cn c).bind
        (fun blk => (inlineCmds tbl cf cn rest).map
          (fun p => (blk.1 ++ p.1, blk.2 ++ p.2))) := by
  rw [inlineCmds, inlineStep]
  by_cases hc : (decide (c.command = "call") || decide (c.command = "call-ext")) = true
  · rw [if_pos hc, if_pos hc]
    cases hhd : c.args.head? with
    | none => rfl
    | some arg =>
      cases arg with
      | int i => rfl
      | str g =>
        dsimp only
        cases hl : List.lookup g tbl with
        | none => rfl
        | some gfn =>
          cases hti : tryInline gfn with
          | some body =>
            cases hr : inlineCmds tbl cf cn rest with
            | error e => simp [hti, hr, Except.bind, Except.map, Bind.bind]
            | ok pr =>
              obtain ⟨a, b⟩ := pr
              simp [hti, hr, Except.bind, Except.map, Bind.bind]
          | none =>
            cases hr : inlineCmds tbl cf cn rest with
            | error e => simp [hti, hr, Except.bind, Except.map, Bind.bind]
            | ok pr =>
              obtain ⟨a, b⟩ := pr
              simp [hti, hr, Except.bind, Except.map, Bind.bind]
  · rw [if_neg hc, if_neg hc]
    cases hr : inlineCmds tbl cf cn rest with
    | error e => simp [hr, Except.bind, Except.map, Bind.bind]
    | ok pr =>
      obtain ⟨a, b⟩ := pr
      simp [hr, Except.bind, Except.map, Bind.bind]

/-- The inlining loop is compositional over list append. -/
theorem inlineCmds_append (tbl : List (String × Function)) (cf cn : String)
    (xs zs : List Command) (cxs : List Command) (dxs : List String)
    (hxs : inlineCmds tbl cf cn xs = .ok (cxs, dxs)) :
    inlineCmds tbl cf cn (xs ++ zs) =
      (inlineCmds tbl cf cn zs).map (fun p => (cxs ++ p.1, dxs ++ p.2)) := by
  induction xs generalizing cxs dxs with
  | nil =>
    rw [inlineCmds] at hxs
    have h1 : cxs = [] ∧ dxs = [] := by
      have := Except.ok.inj hxs
      exact ⟨congrArg Prod.fst this.symm, congrArg Prod.snd this.symm⟩
    obtain ⟨rfl, rfl⟩ := h1
    cases hz : inlineCmds tbl cf cn zs with
    | error e => simp [hz, Except.map]
    | ok pr => simp [hz, Except.map]
  | cons c xs ih =>
    rw [List.cons_append]
    rw [inlineCmds_cons_eq] at hxs
    rw [inlineCmds_cons_eq]
    cases hs : inlineStep tbl cf cn c with
    | error e =>
      rw [hs] at hxs
      exact absurd hxs (by simp [Except.bind, Bind.bind])
    | ok blk =>
      rw [hs] at hxs
      cases hx : inlineCmds tbl cf cn xs with
      | error e =>
        rw [hx] at hxs
        exact absurd hxs (by simp [Except.bind, Bind.bind, Except.map])
      | ok pxs =>
        obtain ⟨a, b⟩ := pxs
        rw [hx] at hxs
        have : Except.ok (ε := String) (blk.1 ++ a, blk.2 ++ b) = .ok (cxs, dxs) := by
          simpa [Except.bind, Bind.bind, Except.map] using hxs
        have h2 := Except.ok.inj this
        have hc : blk.1 ++ a = cxs := congrArg Prod.fst h2
        have hd : blk.2 ++ b = dxs := congrArg Prod.snd h2
        rw [ih a b hx]
        cases hz : inlineCmds tbl cf cn zs with
        | error e => simp [hz, Except.map, Except.bind, Bind.bind]
        | ok pz =>
          simp [hz, Except.map, Except.bind, Bind.bind, ← hc, ← hd, List.append_assoc]

/-- A list is a prefix of itself followed by anything. -/
theorem isPrefixOf_append_self (l x : List Char) : l.isPrefixOf (l ++ x) = true := by
  induction l with
  | nil => simp [List.isPrefixOf]
  | cons a as ih => simp [List.isPrefixOf, ih]

/-- `try_inline` on a function whose exact command sequence is the
member-accessor shape returns the `pop pointer 1; push that I` body (the
constant- and static-accessor matches fail on the five-command list). -/
theorem tryInline_member (gfn : Function) (declOp : String) (dargs : List Arg) (I : Int)
    (hdecl : gfn.commands =
      [⟨declOp, dargs⟩, ⟨"push", [.str "argument", .int 0]⟩,
       ⟨"pop", [.str "pointer", .int 0]⟩, ⟨"push", [.str "this", .int I]⟩,
       ⟨"return", []⟩])
    (hop : declOp = "function" ∨ declOp = "function-ext") :
    tryInline gfn = some [⟨"pop", [.str "pointer", .int 1]⟩,
                          ⟨"push", [.str "that", .int I]⟩] := by
  have hfun : regexMatch patFunctionAny ⟨declOp, dargs⟩ = true := by
    rw [regexMatch, patFunctionAny]
    rcases hop with h | h <;> rw [Command.symbolic, h]
    · simp [isPrefixOf_append_self]
    · have hfe : ("function-ext".data : List Char) = "function".data ++ "-ext".data := rfl
      simp [hfe, List.append_assoc, isPrefixOf_append_self]
  have hthis : regexMatch patPushThisAny ⟨"push", [.str "this", .int I]⟩ = true := by
    rw [regexMatch, patPushThisAny]
    simp [Command.symbolic, Arg.chars, List.isPrefixOf]
  rw [tryInline]
  have h1 : isConstantAccessor gfn = false := by
    rw [isConstantAccessor, hdecl, matchCode]
    simp
  have h2 : isStaticAccessor gfn = false := by
    rw [isStaticAccessor, hdecl, matchCode]
    simp
  have h3 : isMemberAccessor gfn = true := by
    rw [isMemberAccessor, hdecl, matchCode]
    simp only [List.length_cons, List.length_nil, if_true]
    simp [List.zip, List.zipWith, hfun, hthis, noExclude]
    refine ⟨by decide, by decide, by decide⟩
  rw [h1, h2, h3]
  simp only [Bool.false_eq_true, if_false, if_true]
  rw [cmdAt, hdecl]
  rfl
/-- **C8.** For a callee whose exact command sequence is
`function …; push argument 0; pop pointer 0; push this I; return`, the
inlining pass replaces each `call`/`call-ext` of that callee in a caller's
body with `inline-call <callee filename> <callee name>; pop pointer 1;
push that I; inline-return <caller filename> <caller name>`, and that call
site contributes nothing to the caller's rebuilt dependency list. -/
theorem C8_member_accessor_inlining (tbl : List (String × Function))
    (caller gfn : Function) (g declOp callOp : String) (dargs a : List Arg) (I : Int)
    (xs ys cxs cys : List Command) (dxs dys : List String)
    (hcmds : caller.commands = xs ++ ⟨callOp, .str g :: a⟩ :: ys)
    (hg : tbl.lookup g = some gfn)
    (hdecl : gfn.commands =
      [⟨declOp, dargs⟩, ⟨"push", [.str "argument", .int 0]⟩,
       ⟨"pop", [.str "pointer", .int 0]⟩, ⟨"push", [.str "this", .int I]⟩,
       ⟨"return", []⟩])
    (hop : declOp = "function" ∨ declOp = "function-ext")
    (hcall : callOp = "call" ∨ callOp = "call-ext")
    (hxs : inlineCmds tbl caller.filename caller.function_name xs = .ok (cxs, dxs))
    (hys : inlineCmds tbl caller.filename caller.function_name ys = .ok (cys, dys)) :
    Optimizer.inline tbl caller = .ok
      { caller with
        commands := cxs ++
          ⟨"inline-call", [.str gfn.filename, .str gfn.function_name]⟩ ::
          ⟨"pop", [.str "pointer", .int 1]⟩ :: ⟨"push", [.str "that", .int I]⟩ ::
          ⟨"inline-return", [.str caller.filename, .str caller.function_name]⟩ :: cys,
        dependencies := dxs ++ dys } := by
  have hstep : inlineStep tbl caller.filename caller.function_name ⟨callOp, .str g :: a⟩ =
      .ok (⟨"inline-call", [.str gfn.filename, .str gfn.function_name]⟩ ::
           ⟨"pop", [.str "pointer", .int 1]⟩ :: ⟨"push", [.str "that", .int I]⟩ ::
           [⟨"inline-return", [.str caller.filename, .str caller.function_name]⟩], []) := by
    rw [inlineStep]
    rw [if_pos (by rcases hcall with h | h <;> simp [h])]
    dsimp only [List.head?_cons]
    rw [hg]
    dsimp only
    rw [tryInline_member gfn declOp dargs I hdecl hop]
    rfl
  rw [Optimizer.inline, hcmds]
  rw [inlineCmds_append tbl caller.filename caller.function_name xs _ cxs dxs hxs]
  rw [inlineCmds_cons_eq, hstep]
  cases hys' : inlineCmds tbl caller.filename caller.function_name ys with
  | error e => rw [hys'] at hys; cases hys
  | ok pys =>
    rw [hys'] at hys
    obtain ⟨cys', dys'⟩ := pys
    have h2 := Except.ok.inj hys
    have hc : cys' = cys := congrArg Prod.fst h2
    have hd : dys' = dys := congrArg Prod.snd h2
    subst hc hd
    simp [Except.bind, Bind.bind, Except.map]

/-- Witness for C8: inlining the call to `Point.getx` in a concrete
caller. -/
theorem C8_member_accessor_inlining_witness :
    c8Caller.commands = [] ++ ⟨"call", .str "Point.getx" :: [.int 1]⟩ :: [] ∧
    Optimizer.inline c8Tbl c8Caller = .ok
      { c8Caller with
        commands := [] ++
          ⟨"inline-call", [.str "Point", .str "Point.getx"]⟩ ::
          ⟨"pop", [.str "pointer", .int 1]⟩ :: ⟨"push", [.str "that", .int 0]⟩ ::
          ⟨"inline-return", [.str "Main", .str "Main.main"]⟩ :: [],
        dependencies := [] ++ [] } :=
  ⟨rfl,
   C8_member_accessor_inlining c8Tbl c8Caller
     ⟨"Point", "Point.getx",
      [⟨"function", [.str "Point.getx", .int 0]⟩,
       ⟨"push", [.str "argument", .int 0]⟩, ⟨"pop", [.str "pointer", .int 0]⟩,
       ⟨"push", [.str "this", .int 0]⟩, ⟨"return", []⟩], []⟩
     "Point.getx" "function" "call" [.str "Point.getx", .int 0] [.int 1] 0
     [] [] [] [] [] []
     rfl rfl rfl (Or.inl rfl) (Or.inl rfl) rfl rfl⟩

/-- Inversion for a successful `Except.map`. -/
theorem except_map_ok {α β : Type} (f : α → β) (x : Except String α) (y : β)
    (h : Except.map f x = .ok y) : ∃ a, x = .ok a ∧ y = f a := by
  cases x with
  | error e => simp [Except.map] at h
  | ok a => exact ⟨a, rfl, (Except.ok.inj h).symm⟩

set_option maxHeartbeats 2000000 in
/-- For every opcode handler in the dispatch table, a successful
application advances `call_index` by exactly one when the opcode is
`call`, `call-ext` or `function-ext`, and leaves it unchanged otherwise. -/
theorem handler_call_index (e : String × ASMTranslator.Handler)
    (he : e ∈ ASMTranslator.opcodeHandlers) (t : ASMTranslator) (args : List Arg)
    (t' : ASMTranslator) (out : List String) (h : e.2 t args = .ok (t', out)) :
    t'.call_index = t.call_index +
      (if e.1 == "call" || e.1 == "call-ext" || e.1 == "function-ext" then 1 else 0) := by
  fin_cases he <;>
    (dsimp only at h ⊢
     split at h
     all_goals
       first
       | (cases h <;>
          simp [ASMTranslator.arityError, ASMTranslator.nextReturnAddressLabel,
            ASMTranslator.nextAddressLabel, ASMTranslator.eqAsm, ASMTranslator.cmpAsm,
            ASMTranslator.functionAsm, ASMTranslator.functionExtAsm, ASMTranslator.callAsm,
            ASMTranslator.callExtAsm, ASMTranslator.saveStackAsm, ASMTranslator.initVmAsm,
            ASMTranslator.inlineSwap])
       | (obtain ⟨a, hx, hy⟩ := except_map_ok _ _ _ h
          cases hy
          simp))
/-- `ASMTranslator.translate` advances `call_index` by one exactly on the
`call`/`call-ext`/`function-ext` opcodes. -/
theorem translateCmd_call_index (t : ASMTranslator) (c : Command)
    (t' : ASMTranslator) (out : List String)
    (h : t.translateCmd c = .ok (t', out)) :
    t'.call_index = t.call_index + (if consumesRetLabel c then 1 else 0) := by
  rw [ASMTranslator.translateCmd] at h
  cases hl : ASMTranslator.opcodeHandlers.lookup c.command with
  | none => rw [hl] at h; cases h
  | some f =>
    rw [hl] at h
    dsimp only at h
    have hmem := lookup_mem ASMTranslator.opcodeHandlers c.command f hl
    have hcall := handler_call_index (c.command, f) hmem t c.args t' out h
    simpa [consumesRetLabel] using hcall

/-- Over a command list, `call_index` grows by the number of
return-label-consuming commands. -/
theorem translateCmdsOut_call_index (cmds : List Command) :
    ∀ (t : ASMTranslator) (glc lc : Nat) (t' : ASMTranslator) (glc' lc' : Nat)
      (chunks : List String),
      translateCmdsOut t glc lc cmds = .ok (t', glc', lc', chunks) →
      t'.call_index = t.call_index + countRetLabels cmds := by
  induction cmds with
  | nil =>
    intro t glc lc t' glc' lc' chunks h
    rw [translateCmdsOut] at h
    cases h
    simp [countRetLabels]
  | cons c rest ih =>
    intro t glc lc t' glc' lc' chunks h
    rw [translateCmdsOut] at h
    cases hc : t.translateCmd c with
    | error e => rw [hc] at h; exact absurd h (by simp [Bind.bind, Except.bind])
    | ok q =>
      obtain ⟨t₁, instrs⟩ := q
      rw [hc] at h
      simp only [Bind.bind, Except.bind] at h
      cases hrec : translateCmdsOut t₁ (writeInstrs instrs glc lc).2.1
          (writeInstrs instrs glc lc).2.2 rest with
      | error e =>
        rw [hrec] at h
        exact absurd h (by simp [Bind.bind, Except.bind])
      | ok q₂ =>
        obtain ⟨t₂, glc₂, lc₂, chunks₂⟩ := q₂
        rw [hrec] at h
        have h2 := Except.ok.inj h
        have ht : t₂ = t' := congrArg Prod.fst h2
        subst ht
        have e1 := translateCmd_call_index t c t₁ instrs hc
        have e2 := ih t₁ _ _ _ _ _ _ hrec
        rw [countRetLabels, List.countP_cons]
        rw [countRetLabels] at e2
        rw [e2, e1]
        by_cases hcr : consumesRetLabel c = true
        · simp [hcr]; omega
        · simp only [Bool.not_eq_true] at hcr
          simp [hcr]
  
set_option maxRecDepth 40000 in
/-- **C9, counterexample.** Lowering `A` (one call site) and then `B` (one
call site) with a single emitter gives `A`'s call the return label
`A$ret.0`, but `B`'s call gets `B$ret.1` — not `B$ret.0` as a counter that
restarts for each function would give. -/
theorem C9_counterexample :
    (c9chunks.any (fun s => decide ("(A$ret.0)".data <:+: s.data)) = true) ∧
    (c9chunks.any (fun s => decide ("(B$ret.1)".data <:+: s.data)) = true) ∧
    (c9chunks.any (fun s => decide ("(B$ret.0)".data <:+: s.data)) = false) := by
  refine ⟨by decide, by decide, by decide⟩

/-- **C9, amended.** `call_index` is shared emitter state that
`Function.translate` never resets: lowering a function adds the number of
its `call`/`call-ext`/`function-ext` commands to the incoming counter,
whatever its value — so the `N` of an emitted `FuncName$ret.N` is the
number of return-address labels allocated so far across the whole
emission, not a per-function index (only `label_index`-style state is not
involved; `filename`/`function_name` are re-set per function,
`call_index` is not). -/
theorem C9_call_index_never_reset (fn : Function) (t : ASMTranslator) (glc : Nat)
    (t' : ASMTranslator) (glc' : Nat) (out : List String)
    (h : fn.translate t glc = .ok (t', glc', out)) :
    t'.call_index = t.call_index + countRetLabels fn.commands := by
  rw [Function.translate] at h
  cases hto : translateCmdsOut
      { t with filename := fn.filename, function_name := fn.function_name }
      glc 0 fn.commands with
  | error e => rw [hto] at h; exact absurd h (by simp [Bind.bind, Except.bind])
  | ok q =>
    obtain ⟨t₁, glc₁, lc₁, chunks⟩ := q
    rw [hto] at h
    have h2 := Except.ok.inj h
    have ht : t₁ = t' := congrArg Prod.fst h2
    subst ht
    have := translateCmdsOut_call_index fn.commands
      { t with filename := fn.filename, function_name := fn.function_name }
      glc 0 t₁ glc₁ lc₁ chunks hto
    simpa using this

set_option maxRecDepth 40000 in
/-- Witness for C9 (amended): lowering `c9fnA` from the fresh emitter
takes `call_index` from 0 to 1 = 0 + 1. -/
theorem C9_call_index_never_reset_witness :
    c9fnA.translate ASMTranslator.init 0 =
      .ok (⟨"Main", "A", 1, 0⟩, 12,
        (c9fnA.translate ASMTranslator.init 0).toOption.elim [] (fun r => r.2.2)) ∧
    (⟨"Main", "A", 1, 0⟩ : ASMTranslator).call_index =
      ASMTranslator.init.call_index + countRetLabels c9fnA.commands :=
  ⟨by rfl,
   C9_call_index_never_reset c9fnA ASMTranslator.init 0 ⟨"Main", "A", 1, 0⟩ 12 _ (by rfl)⟩

end VMTrans
